import Mathlib

/-!
# Verification of the dooshki-util argument-parsing library

Shallow embedding of `src/dooshki_args.c` / `src/dooshki_args.h`.

Modelling conventions:
* A C string (token) is a `List Char`; the terminating NUL is the end of
  the list.  `argv` is a `List (Option Token)`; a `none` entry models a
  `NULL` pointer (the scanner nulls out consumed entries in place).
* Each option descriptor owns one destination slot; the parse state keeps a
  list of `OptVal` parallel to the option table (`opt_storage` per entry),
  and a parallel list of booleans for the `opt_found` flags.
* Side-effecting output (`print_error`) is modelled by an error log:
  every error path that calls `print_error` appends one `ErrEntry`.
  `errors_found` mirrors the C `char errors_found` flag exactly.
* C loops over indices become structural recursions on the exact number of
  remaining iterations (the fuel argument always equals `bound - index` at
  every call site), so the definitions compute by `rfl`/`decide`.
* `strtoul`/`strtol` (C99 semantics, base 10) are modelled for an LP64
  platform: `ULONG_MAX = 2^64 - 1`, `LONG_MAX = 2^63 - 1`.
* `strtod` returns a binary floating-point value, which has no exact
  shallow embedding; the model records the accepted subject sequence and
  whether the whole argument was consumed (which is all the library
  inspects on the paths any claim exercises); float range errors
  (`ERANGE`/`HUGE_VAL`) are not modelled and no claim touches them.
* User callbacks (`DOOSHKI_OPT_CB`, `DOOSHKI_OPT_CB_NOARG`) are modelled as
  pure functions from the optional argument text and the current contents
  of the callback's own storage slot to new contents plus a success flag.
* Help/usage rendering (`print_help`, `print_usage`, column layout) is
  display-only and not modelled; descriptor fields that only feed the help
  screen (`argument_template`, `description`) are omitted.
-/

namespace Dooshki

/-- A C string / argv token: list of characters, NUL terminator implicit. -/
abbrev Token := List Char

/-- `isspace` in the C locale. -/
def isCSpace (c : Char) : Bool :=
  c = ' ' || c = '\t' || c = '\n' || c = '\x0b' || c = '\x0c' || c = '\r'

/-- `isdigit`. -/
def isCDigit (c : Char) : Bool :=
  '0' ≤ c && c ≤ '9'

/-- LP64 `ULONG_MAX`. -/
def ULONG_MAX : Nat := 2 ^ 64 - 1

/-- LP64 `LONG_MAX`. -/
def LONG_MAX : Int := 2 ^ 63 - 1

/-- LP64 `LONG_MIN`. -/
def LONG_MIN : Int := -(2 ^ 63)

/-- Result of `strtoul(arg, &endptr, 10)`: the returned value, whether
`*endptr == '\0'` (all the library ever checks about `endptr`), and whether
`errno` was set to `ERANGE`. -/
structure CULongParse where
  value   : Nat
  end_nul : Bool
  erange  : Bool
deriving DecidableEq, Repr

/-- Numeric value of a digit string. -/
def digitsVal (ds : List Char) : Nat :=
  ds.foldl (fun a c => a * 10 + (c.toNat - '0'.toNat)) 0

/-- C99 `strtoul` with base 10: skip `isspace` characters, accept one
optional sign, consume digits.  With no digits, `endptr` is the original
pointer and 0 is returned.  On magnitude overflow, `ULONG_MAX` with
`ERANGE`.  A minus sign negates the value in `unsigned long` arithmetic. -/
def strtoul10 (s : Token) : CULongParse :=
  let s1 := s.dropWhile isCSpace
  let neg := s1.head? = some '-'
  let s2 := if s1.head? = some '-' ∨ s1.head? = some '+' then s1.tail else s1
  let ds := s2.takeWhile isCDigit
  let rest := s2.drop ds.length
  if ds.isEmpty then
    { value := 0, end_nul := s.isEmpty, erange := false }
  else if digitsVal ds > ULONG_MAX then
    { value := ULONG_MAX, end_nul := rest.isEmpty, erange := true }
  else
    { value := if neg then (ULONG_MAX + 1 - digitsVal ds % (ULONG_MAX + 1)) % (ULONG_MAX + 1)
               else digitsVal ds,
      end_nul := rest.isEmpty, erange := false }

/-- Result of `strtol(arg, &endptr, 10)`. -/
structure CLongParse where
  value   : Int
  end_nul : Bool
  erange  : Bool
deriving DecidableEq, Repr

/-- C99 `strtol` with base 10 (LP64 range, clamping with `ERANGE`). -/
def strtol10 (s : Token) : CLongParse :=
  let s1 := s.dropWhile isCSpace
  let neg := s1.head? = some '-'
  let s2 := if s1.head? = some '-' ∨ s1.head? = some '+' then s1.tail else s1
  let ds := s2.takeWhile isCDigit
  let rest := s2.drop ds.length
  if ds.isEmpty then
    { value := 0, end_nul := s.isEmpty, erange := false }
  else
    let v : Int := if neg then -(digitsVal ds : Int) else (digitsVal ds : Int)
    if v > LONG_MAX then { value := LONG_MAX, end_nul := rest.isEmpty, erange := true }
    else if v < LONG_MIN then { value := LONG_MIN, end_nul := rest.isEmpty, erange := true }
    else { value := v, end_nul := rest.isEmpty, erange := false }

/-- Result of `strtod(arg, &endptr)`.  The binary floating-point value is
not representable in the embedding; `text` records the accepted subject
sequence (which determines the value), and range errors are not modelled
(no claim exercises the `HUGE_VAL`/`ERANGE` branches of
`process_float_arg`). -/
structure CDoubleParse where
  text    : Token
  end_nul : Bool
deriving DecidableEq, Repr

/-- C99 `strtod`, restricted to the decimal (non-hex, non-inf/nan) subject
grammar: optional sign, digits with an optional decimal point (at least
one digit overall), then an optional exponent part that is consumed only
when it contains at least one digit. -/
def strtod_model (s : Token) : CDoubleParse :=
  let s1 := s.dropWhile isCSpace
  let sgn : Nat := if s1.head? = some '-' ∨ s1.head? = some '+' then 1 else 0
  let s2 := s1.drop sgn
  let ip := s2.takeWhile isCDigit
  let s3 := s2.drop ip.length
  let fd : List Char := if s3.head? = some '.' then (s3.drop 1).takeWhile isCDigit else []
  let s4 := if s3.head? = some '.' then (s3.drop 1).drop fd.length else s3
  if ip.isEmpty ∧ fd.isEmpty then
    { text := [], end_nul := s.isEmpty }
  else
    let ed : List Char :=
      match s4 with
      | 'e' :: r1 | 'E' :: r1 =>
        let r2 := if r1.head? = some '-' ∨ r1.head? = some '+' then r1.drop 1 else r1
        r2.takeWhile isCDigit
      | _ => []
    let s5 :=
      match s4 with
      | 'e' :: r1 | 'E' :: r1 =>
        if ed.isEmpty then s4
        else
          let r2 := if r1.head? = some '-' ∨ r1.head? = some '+' then r1.drop 1 else r1
          r2.drop ed.length
      | _ => s4
    { text := s1.take (s1.length - s5.length), end_nul := s5.isEmpty }

/-- `enum dooshki_opt_type`. -/
inductive OptType where
  | BOOL | NEGBOOL | STR | INT | UINT | FLOAT | CB | CB_NOARG
deriving DecidableEq, Repr

/-- Contents of one destination slot (`opt_storage`).  `vChar` models the
`char` used by bool/negbool storage, `vDouble` the abstracted double. -/
inductive OptVal where
  | vChar   (n : Nat)
  | vStr    (s : Token)
  | vULong  (n : Nat)
  | vLong   (n : Int)
  | vDouble (d : CDoubleParse)
deriving DecidableEq, Repr

/-- One call to `print_error` on an error path (spec §7 error kinds). -/
inductive ErrEntry where
  | unrecognizedLong  (opt : Token)
  | unrecognizedShort (c : Char)
  | unexpectedArg     (arg name : Token)
  | missingArg        (pfx name : Token)
  | invalidNumber     (arg pfx name : Token)
  | numberTooLarge    (arg pfx name : Token)
  | numberTooSmall    (arg pfx name : Token)
  | unknownType       (pfx name : Token)
deriving DecidableEq, Repr

/-- `struct dooshki_opt` (display-only fields omitted; the short name is
kept as the full C string, of which only `short_name[0]` is matched).
`has_found` models `opt_found != NULL`; `callback` models the user
callback as a pure transformer of the entry's own storage slot. -/
structure dooshki_opt where
  short_name : Option Token
  long_name  : Option Token
  type       : OptType
  has_found  : Bool
  callback   : Option Token → OptVal → OptVal × Bool

/-- `struct dooshki_args` (display-only fields omitted). -/
structure dooshki_args where
  opt_desc : List dooshki_opt

/-- `enum dooshki_args_ret`. -/
inductive dooshki_args_ret where
  | PARSE_OK | HELP_SHOWN | VER_SHOWN | PARSE_ERROR
deriving DecidableEq, Repr

/-- The mutable state threaded through `dooshki_args_parse`'s scan:
`argv` (with consumed entries nulled), the destination slots, the
found-flags, the three `char` flags, and the log of printed errors. -/
@[ext]
structure ParseState where
  argv         : List (Option Token)
  store        : List OptVal
  found        : List Bool
  show_help    : Bool
  show_version : Bool
  errors_found : Bool
  err_log      : List ErrEntry

/-- The literal token `--`. -/
def dashDash : Token := ['-', '-']

/-- The literal token `--help`. -/
def helpLongTok : Token := ['-', '-', 'h', 'e', 'l', 'p']

/-- The literal token `--version`. -/
def verLongTok : Token := ['-', '-', 'v', 'e', 'r', 's', 'i', 'o', 'n']

/-- `process_uint_arg`: writes `strtoul`'s result into the destination
unconditionally, then validates (`*test_ptr != '\0' || argument[0] == '-'`
first, then the `ULONG_MAX && ERANGE` check).  Returns the new destination
contents and the error printed, if any. -/
def process_uint_arg (pfx name argument : Token) : OptVal × Option ErrEntry :=
  let r := strtoul10 argument
  if ¬ r.end_nul ∨ argument.head? = some '-' then
    (OptVal.vULong r.value, some (ErrEntry.invalidNumber argument pfx name))
  else if r.value = ULONG_MAX ∧ r.erange then
    (OptVal.vULong r.value, some (ErrEntry.numberTooLarge argument pfx name))
  else
    (OptVal.vULong r.value, none)

/-- `process_int_arg`. -/
def process_int_arg (pfx name argument : Token) : OptVal × Option ErrEntry :=
  let r := strtol10 argument
  if ¬ r.end_nul then
    (OptVal.vLong r.value, some (ErrEntry.invalidNumber argument pfx name))
  else if r.value = LONG_MAX ∧ r.erange then
    (OptVal.vLong r.value, some (ErrEntry.numberTooLarge argument pfx name))
  else if r.value = LONG_MIN ∧ r.erange then
    (OptVal.vLong r.value, some (ErrEntry.numberTooSmall argument pfx name))
  else
    (OptVal.vLong r.value, none)

/-- `process_float_arg`.  The `HUGE_VAL`/`ERANGE` branches depend on binary
floating point and are not modelled (see `CDoubleParse`). -/
def process_float_arg (pfx name argument : Token) : OptVal × Option ErrEntry :=
  let r := strtod_model argument
  if ¬ r.end_nul then
    (OptVal.vDouble r, some (ErrEntry.invalidNumber argument pfx name))
  else
    (OptVal.vDouble r, none)

/-- `process_opt_arg`: dispatch on the option type; returns the new
destination contents, the success flag, and the error printed by the
library, if any.  The final catch-all is C's `default:` branch
("Bug: Unknown argument type"), reached only if a no-argument type were
passed here (the callers never do). -/
def process_opt_arg (o : dooshki_opt) (opt_is_long : Bool) (cur : OptVal)
    (argument : Token) : OptVal × Bool × Option ErrEntry :=
  let pfx : Token := if opt_is_long then ['-', '-'] else ['-']
  let name : Token := if opt_is_long then o.long_name.getD [] else o.short_name.getD []
  match o.type with
  | OptType.STR => (OptVal.vStr argument, true, none)
  | OptType.INT =>
    let r := process_int_arg pfx name argument
    (r.1, r.2.isNone, r.2)
  | OptType.UINT =>
    let r := process_uint_arg pfx name argument
    (r.1, r.2.isNone, r.2)
  | OptType.FLOAT =>
    let r := process_float_arg pfx name argument
    (r.1, r.2.isNone, r.2)
  | OptType.CB =>
    let r := o.callback (some argument) cur
    (r.1, r.2, none)
  | _ => (cur, false, some (ErrEntry.unknownType pfx name))

/-- The value-consuming search shared by `process_long_opt` and
`process_short_opts`: starting at index `j`, find the first non-null
entry; stop (without consuming) at the literal `--`.  `n` is the exact
number of remaining indices (`argc - j` at every call site). -/
def find_value_token (argv : List (Option Token)) : Nat → Nat → Option Nat
  | 0, _ => none
  | n + 1, j =>
    match argv.getD j none with
    | none => find_value_token argv n (j + 1)
    | some t => if t = dashDash then none else some j

/-- Consume the next available token as an option value: read it, null its
slot.  Returns the updated state and the captured text. -/
def consume_value (argc : Nat) (s : ParseState) (opt_argi : Nat) :
    ParseState × Option Token :=
  match find_value_token s.argv (argc - (opt_argi + 1)) (opt_argi + 1) with
  | some vi =>
    ({ s with argv := s.argv.set vi none }, some ((s.argv.getD vi none).getD []))
  | none => (s, none)

/-- Run `process_opt_arg` for entry `idx` and record its effects: write the
destination, raise `errors_found` on failure, log the printed error. -/
def apply_opt_arg (s : ParseState) (idx : Nat) (o : dooshki_opt)
    (opt_is_long : Bool) (argument : Token) : ParseState :=
  let r := process_opt_arg o opt_is_long (s.store.getD idx (OptVal.vChar 0)) argument
  { s with store := s.store.set idx r.1,
           errors_found := s.errors_found || !r.2.1,
           err_log := s.err_log ++ r.2.2.toList }

/-- C `strncmp(a, b, n)` on NUL-terminated strings modelled as lists:
compare at most `n` characters, stopping at a difference or at the end of
either string. -/
def strncmp0 : Token → Token → Nat → Ordering
  | _, _, 0 => Ordering.eq
  | [], [], _ + 1 => Ordering.eq
  | [], _ :: _, _ + 1 => Ordering.lt
  | _ :: _, [], _ + 1 => Ordering.gt
  | a :: as, b :: bs, n + 1 =>
    if a = b then strncmp0 as bs n
    else if a < b then Ordering.lt else Ordering.gt

/-- The long-option table search of `process_long_opt` (the C fuses the
search and the handling in one loop guarded by `opt_recognized`; the first
match wins and the loop stops, which is exactly a first-match search).
`after_dashes` is `option + 2`, `opt_len` the candidate-name length; the
loop stops at the all-NULL sentinel. -/
def long_opt_search : List dooshki_opt → Token → Nat → Nat → Option (Nat × dooshki_opt)
  | [], _, _, _ => none
  | o :: rest, after_dashes, opt_len, idx =>
    if o.short_name = none ∧ o.long_name = none then none
    else
      match o.long_name with
      | none => long_opt_search rest after_dashes opt_len (idx + 1)
      | some ln =>
        if strncmp0 after_dashes ln opt_len = Ordering.eq then some (idx, o)
        else long_opt_search rest after_dashes opt_len (idx + 1)

/-- The body run by `process_long_opt` for the matched entry: set the
found-flag first, then dispatch on the option type (no-value kinds reject
an inline argument; value kinds use the inline argument or consume the
next token, else report a missing argument). -/
def handle_long_match (argc : Nat) (s : ParseState) (opt_argi idx : Nat)
    (o : dooshki_opt) (inline_arg : Option Token) : ParseState :=
  let s0 := if o.has_found then { s with found := s.found.set idx true } else s
  match o.type with
  | OptType.BOOL =>
    match inline_arg with
    | some a =>
      { s0 with errors_found := true,
                err_log := s0.err_log ++ [ErrEntry.unexpectedArg a (o.long_name.getD [])] }
    | none => { s0 with store := s0.store.set idx (OptVal.vChar 1) }
  | OptType.NEGBOOL =>
    match inline_arg with
    | some a =>
      { s0 with errors_found := true,
                err_log := s0.err_log ++ [ErrEntry.unexpectedArg a (o.long_name.getD [])] }
    | none => { s0 with store := s0.store.set idx (OptVal.vChar 0) }
  | OptType.CB_NOARG =>
    match inline_arg with
    | some a =>
      { s0 with errors_found := true,
                err_log := s0.err_log ++ [ErrEntry.unexpectedArg a (o.long_name.getD [])] }
    | none =>
      let r := o.callback none (s0.store.getD idx (OptVal.vChar 0))
      { s0 with store := s0.store.set idx r.1,
                errors_found := s0.errors_found || !r.2 }
  | _ =>
    match inline_arg with
    | some a => apply_opt_arg s0 idx o true a
    | none =>
      match (consume_value argc s0 opt_argi).2 with
      | some a => apply_opt_arg (consume_value argc s0 opt_argi).1 idx o true a
      | none =>
        { (consume_value argc s0 opt_argi).1 with
          errors_found := true,
          err_log := (consume_value argc s0 opt_argi).1.err_log
            ++ [ErrEntry.missingArg ['-', '-'] (o.long_name.getD [])] }

/-- The character test of the `=`-splitting loop in `process_long_opt`
(`option[iter] != '='`, the `'\0'` bound being the end of the list). -/
def not_eq_sign (c : Char) : Bool := c != '='

/-- `process_long_opt`: exact matches against the built-in `--help` /
`--version` first (honouring the mutual-exclusion guards), then split the
candidate name at the first `=`, search the table, and handle the match or
report an unrecognized option. -/
def process_long_opt (argc : Nat) (tbl : List dooshki_opt) (s : ParseState)
    (opt_argi : Nat) (option_tok : Token) : ParseState :=
  if option_tok = helpLongTok then
    if ¬ s.show_version then { s with show_help := true } else s
  else if option_tok = verLongTok then
    if ¬ s.show_help then { s with show_version := true } else s
  else
    let after := option_tok.drop 2
    let cand := after.takeWhile not_eq_sign
    let inline_arg : Option Token :=
      match after.dropWhile not_eq_sign with
      | _ :: a => some a
      | [] => none
    match long_opt_search tbl after cand.length 0 with
    | some (idx, o) => handle_long_match argc s opt_argi idx o inline_arg
    | none =>
      { s with errors_found := true,
               err_log := s.err_log ++ [ErrEntry.unrecognizedLong option_tok] }

/-- The short-option table search of `process_short_opts`: first entry (in
table order, stopping at the sentinel) whose non-null `short_name` has the
scanned character as its first character. -/
def short_opt_search : List dooshki_opt → Char → Nat → Option (Nat × dooshki_opt)
  | [], _, _ => none
  | o :: rest, c, idx =>
    if o.short_name = none ∧ o.long_name = none then none
    else
      match o.short_name with
      | none => short_opt_search rest c (idx + 1)
      | some sn =>
        if sn.head? = some c then some (idx, o)
        else short_opt_search rest c (idx + 1)

/-- The body run by `process_short_opts` for the matched entry: set the
found-flag first, then dispatch on the option type (value kinds consume
the next available token or report a missing argument). -/
def handle_short_match (argc : Nat) (s : ParseState) (opt_argi idx : Nat)
    (o : dooshki_opt) : ParseState :=
  let s0 := if o.has_found then { s with found := s.found.set idx true } else s
  match o.type with
  | OptType.BOOL => { s0 with store := s0.store.set idx (OptVal.vChar 1) }
  | OptType.NEGBOOL => { s0 with store := s0.store.set idx (OptVal.vChar 0) }
  | OptType.CB_NOARG =>
    let r := o.callback none (s0.store.getD idx (OptVal.vChar 0))
    { s0 with store := s0.store.set idx r.1,
              errors_found := s0.errors_found || !r.2 }
  | _ =>
    match (consume_value argc s0 opt_argi).2 with
    | some a => apply_opt_arg (consume_value argc s0 opt_argi).1 idx o false a
    | none =>
      { (consume_value argc s0 opt_argi).1 with
        errors_found := true,
        err_log := (consume_value argc s0 opt_argi).1.err_log
          ++ [ErrEntry.missingArg ['-'] (o.short_name.getD [])] }

/-- The body of `process_short_opts` for one cluster character: built-in
`h`/`V` checks first (with the mutual-exclusion guards), then table
search and handling or an unrecognized-option error. -/
def short_opt_step (argc : Nat) (tbl : List dooshki_opt) (opt_argi : Nat)
    (s : ParseState) (c : Char) : ParseState :=
  if c = 'h' then (if ¬ s.show_version then { s with show_help := true } else s)
  else if c = 'V' then (if ¬ s.show_help then { s with show_version := true } else s)
  else
    match short_opt_search tbl c 0 with
    | some (idx, o) => handle_short_match argc s opt_argi idx o
    | none =>
      { s with errors_found := true,
               err_log := s.err_log ++ [ErrEntry.unrecognizedShort c] }

/-- The per-character loop of `process_short_opts`. -/
def short_opts_loop (argc : Nat) (tbl : List dooshki_opt) (opt_argi : Nat) :
    ParseState → List Char → ParseState
  | s, [] => s
  | s, c :: rest =>
    short_opts_loop argc tbl opt_argi (short_opt_step argc tbl opt_argi s c) rest

/-- `process_short_opts`: scan the characters of the token after the
leading dash. -/
def process_short_opts (argc : Nat) (tbl : List dooshki_opt) (s : ParseState)
    (opt_argi : Nat) (options_tok : Token) : ParseState :=
  short_opts_loop argc tbl opt_argi s (options_tok.drop 1)

/-- The scanning loop of `dooshki_args_parse`: index `i` runs from 1 while
`i < argc` and the `--` stopper has not been reached; every token starting
with a dash (including `--` itself and a lone `-`) is nulled after
processing.  `n` is the exact number of remaining iterations
(`argc - i` at every call site); reaching the stopper returns early
(the stopper token is nulled, then the loop condition fails). -/
def parse_scan (argc : Nat) (tbl : List dooshki_opt) : Nat → Nat → ParseState → ParseState
  | 0, _, s => s
  | n + 1, i, s =>
    match s.argv.getD i none with
    | none => parse_scan argc tbl n (i + 1) s
    | some tok =>
      if tok.head? = some '-' then
        if tok[1]? = some '-' then
          if tok[2]? = none then
            { s with argv := s.argv.set i none }
          else
            let s1 := process_long_opt argc tbl s i tok
            parse_scan argc tbl n (i + 1) { s1 with argv := s1.argv.set i none }
        else
          let s1 := process_short_opts argc tbl s i tok
          parse_scan argc tbl n (i + 1) { s1 with argv := s1.argv.set i none }
      else
        parse_scan argc tbl n (i + 1) s

/-- The inner pull loop of `deflate_args_list`: first non-null entry at
index `≥ j` (`n` is the exact number of remaining indices). -/
def find_pull (argv : List (Option Token)) : Nat → Nat → Option Nat
  | 0, _ => none
  | n + 1, j =>
    match argv.getD j none with
    | some _ => some j
    | none => find_pull argv n (j + 1)

/-- The fill loop of `deflate_args_list`: for each index from 1, pull the
nearest non-null entry from the right into a null slot; if the slot is
still null, stop and report the new count.  `n` is the exact number of
remaining iterations (`length - fill` at every call site). -/
def deflate_loop : Nat → List (Option Token) → Nat → List (Option Token) × Nat
  | 0, argv, fill => (argv, fill)
  | n + 1, argv, fill =>
    let argv1 :=
      match argv.getD fill none with
      | some _ => argv
      | none =>
        match find_pull argv (argv.length - (fill + 1)) (fill + 1) with
        | some p => (argv.set fill (argv.getD p none)).set p none
        | none => argv
    match argv1.getD fill none with
    | none => (argv1, fill)
    | some _ => deflate_loop n argv1 (fill + 1)

/-- `deflate_args_list`: remove the NULL entries from `argc`/`argv`
(in place, starting at index 1), returning the compacted array and the
updated `*argc`. -/
def deflate_args_list (argv : List (Option Token)) : List (Option Token) × Nat :=
  deflate_loop (argv.length - 1) argv 1

/-- Result of `dooshki_args_parse`: the final array and external count,
the destination slots, found-flags, the scan flags and error log, and the
returned `enum dooshki_args_ret`. -/
structure ParseResult where
  argv         : List (Option Token)
  argc         : Nat
  store        : List OptVal
  found        : List Bool
  show_help    : Bool
  show_version : Bool
  errors_found : Bool
  err_log      : List ErrEntry
  ret          : dooshki_args_ret

/-- The state after the scanning loop of `dooshki_args_parse` (before
compaction), from the caller's argv, destination slots and found-flags. -/
def scan_state (ctxt : dooshki_args) (argv0 : List (Option Token))
    (store0 : List OptVal) (found0 : List Bool) : ParseState :=
  parse_scan argv0.length ctxt.opt_desc (argv0.length - 1) 1
    { argv := argv0, store := store0, found := found0,
      show_help := false, show_version := false,
      errors_found := false, err_log := [] }

/-- `dooshki_args_parse`: scan all tokens, compact the argument list, then
determine the outcome (help before version before error before ok). -/
def dooshki_args_parse (ctxt : dooshki_args) (argv0 : List (Option Token))
    (store0 : List OptVal) (found0 : List Bool) : ParseResult :=
  let s1 := scan_state ctxt argv0 store0 found0
  let d := deflate_args_list s1.argv
  { argv := d.1, argc := d.2, store := s1.store, found := s1.found,
    show_help := s1.show_help, show_version := s1.show_version,
    errors_found := s1.errors_found, err_log := s1.err_log,
    ret :=
      if s1.show_help then dooshki_args_ret.HELP_SHOWN
      else if s1.show_version then dooshki_args_ret.VER_SHOWN
      else if s1.errors_found then dooshki_args_ret.PARSE_ERROR
      else dooshki_args_ret.PARSE_OK }

/-- The compacted argument sequence visible to the caller after the parse:
the first `*argc` entries of the array. -/
def final_args (r : ParseResult) : List (Option Token) := r.argv.take r.argc

/-! ## Concrete instantiations used by witnesses and counterexamples -/

/-- A callback that leaves its storage alone and succeeds (stand-in for
the non-callback option kinds, whose `callback` field is never read). -/
def noCb : Option Token → OptVal → OptVal × Bool := fun _ v => (v, true)

/-- The program-name token used in concrete runs. -/
def progTok : Token := ['p', 'r', 'o', 'g']

/-- A `-c` / `--count` option of kind UInt with a found-flag. -/
def countOpt : dooshki_opt :=
  { short_name := some ['c'], long_name := some ['c', 'o', 'u', 'n', 't'],
    type := OptType.UINT, has_found := true, callback := noCb }

/-- A table holding only `countOpt`. -/
def uintCtxt : dooshki_args := ⟨[countOpt]⟩

/-- An empty option table. -/
def emptyCtxt : dooshki_args := ⟨[]⟩

/-! ## Character-class helper lemmas -/

theorem isCDigit_ne_dash {c : Char} (h : isCDigit c = true) : c ≠ '-' := by
  intro he; subst he; exact absurd h (by decide)

theorem isCDigit_ne_plus {c : Char} (h : isCDigit c = true) : c ≠ '+' := by
  intro he; subst he; exact absurd h (by decide)

theorem isCSpace_eq_false_of_isCDigit {c : Char} (h : isCDigit c = true) :
    isCSpace c = false := by
  cases hs : isCSpace c with
  | false => rfl
  | true =>
    exfalso
    simp only [isCSpace, Bool.or_eq_true, decide_eq_true_eq] at hs
    obtain ((((h1 | h1) | h1) | h1) | h1) | h1 := hs <;> subst h1 <;>
      exact absurd h (by decide)

/-! ## `strtoul` facts -/

/-- On a nonempty all-digit string, `strtoul` consumes everything: no
space to skip, no sign, every character a digit. -/
theorem strtoul10_all_digits {a : Token} (hne : a ≠ [])
    (hd : ∀ c ∈ a, isCDigit c = true) :
    strtoul10 a =
      (if digitsVal a > ULONG_MAX then
        { value := ULONG_MAX, end_nul := true, erange := true }
      else
        { value := digitsVal a, end_nul := true, erange := false }) := by
  obtain ⟨c, t, rfl⟩ := List.exists_cons_of_ne_nil hne
  have hc : isCDigit c = true := hd c (by simp)
  have hsp : isCSpace c = false := isCSpace_eq_false_of_isCDigit hc
  have hdash : c ≠ '-' := isCDigit_ne_dash hc
  have hplus : c ≠ '+' := isCDigit_ne_plus hc
  have h1 : (c :: t).dropWhile isCSpace = c :: t := by
    simp [List.dropWhile_cons, hsp]
  have htw : (c :: t).takeWhile isCDigit = c :: t := by
    rw [List.takeWhile_eq_self_iff]; exact hd
  have hneg : (c = '-') = False := by simp [hdash]
  have hplus' : (c = '+') = False := by simp [hplus]
  simp only [strtoul10, h1, List.head?_cons, Option.some.injEq, hneg, hplus',
    or_self, if_false, htw]
  simp [List.drop_length]

/-! ## C3: UInt option with a non-numeric value -/

/-- C3 counterexample: with `--count=abc` and a destination previously
holding 5, exactly one invalid-number error is registered, but the
destination is NOT left unmodified: `process_uint_arg` stores `strtoul`'s
return value (0 for `abc`) before validating, so the destination ends the
parse holding 0, not 5. -/
theorem C3_counterexample :
    (dooshki_args_parse uintCtxt
        [some progTok, some ['-', '-', 'c', 'o', 'u', 'n', 't', '=', 'a', 'b', 'c']]
        [OptVal.vULong 5] [false]).store ≠ [OptVal.vULong 5]
  ∧ (dooshki_args_parse uintCtxt
        [some progTok, some ['-', '-', 'c', 'o', 'u', 'n', 't', '=', 'a', 'b', 'c']]
        [OptVal.vULong 5] [false]).store = [OptVal.vULong 0]
  ∧ (dooshki_args_parse uintCtxt
        [some progTok, some ['-', '-', 'c', 'o', 'u', 'n', 't', '=', 'a', 'b', 'c']]
        [OptVal.vULong 5] [false]).err_log
      = [ErrEntry.invalidNumber ['a', 'b', 'c'] ['-', '-'] ['c', 'o', 'u', 'n', 't']] := by
  refine ⟨by decide, by decide, by decide⟩

/-- C3 (amended): for a UInt-kind option given a value text whose number
parse does not consume the whole text (e.g. `--count=abc`), exactly one
invalid-number error is registered for that occurrence, and the
destination is overwritten with the value `strtoul` returned for the text
(0 when the text has no leading digits) — it does NOT keep the value it
had before the parse call. -/
theorem C3_uint_invalid_number (a : Token) (v0 : Nat) (b0 : Bool)
    (h : (strtoul10 a).end_nul = false) :
    (dooshki_args_parse uintCtxt
        [some progTok, some (['-', '-', 'c', 'o', 'u', 'n', 't', '='] ++ a)]
        [OptVal.vULong v0] [b0]).err_log
      = [ErrEntry.invalidNumber a ['-', '-'] ['c', 'o', 'u', 'n', 't']]
  ∧ (dooshki_args_parse uintCtxt
        [some progTok, some (['-', '-', 'c', 'o', 'u', 'n', 't', '='] ++ a)]
        [OptVal.vULong v0] [b0]).store = [OptVal.vULong (strtoul10 a).value]
  ∧ (dooshki_args_parse uintCtxt
        [some progTok, some (['-', '-', 'c', 'o', 'u', 'n', 't', '='] ++ a)]
        [OptVal.vULong v0] [b0]).errors_found = true := by
  refine ⟨?_, ?_, ?_⟩ <;>
    simp +decide [dooshki_args_parse, scan_state, parse_scan, process_long_opt,
      helpLongTok, verLongTok, long_opt_search, handle_long_match, apply_opt_arg,
      process_opt_arg, process_uint_arg, consume_value, find_value_token, not_eq_sign,
      deflate_args_list, deflate_loop, find_pull, uintCtxt, countOpt, strncmp0, h]

/-- Witness for `C3_uint_invalid_number` at `--count=abc`, prior value 5. -/
theorem C3_uint_invalid_number_witness :
    (dooshki_args_parse uintCtxt
        [some progTok, some (['-', '-', 'c', 'o', 'u', 'n', 't', '='] ++ ['a', 'b', 'c'])]
        [OptVal.vULong 5] [false]).err_log
      = [ErrEntry.invalidNumber ['a', 'b', 'c'] ['-', '-'] ['c', 'o', 'u', 'n', 't']]
  ∧ (dooshki_args_parse uintCtxt
        [some progTok, some (['-', '-', 'c', 'o', 'u', 'n', 't', '='] ++ ['a', 'b', 'c'])]
        [OptVal.vULong 5] [false]).store = [OptVal.vULong (strtoul10 ['a', 'b', 'c']).value]
  ∧ (dooshki_args_parse uintCtxt
        [some progTok, some (['-', '-', 'c', 'o', 'u', 'n', 't', '='] ++ ['a', 'b', 'c'])]
        [OptVal.vULong 5] [false]).errors_found = true :=
  C3_uint_invalid_number ['a', 'b', 'c'] 5 false (by decide)

/-! ## C9: UInt value-conversion rules -/

/-- C9 counterexample: an empty value text (`--count=`) is an empty parse,
which the original claim says must yield an invalid-number error; the code
accepts it (for an empty argument `strtoul` leaves `endptr` at the
terminating NUL, so the `*test_ptr != '\0'` test passes) and stores 0. -/
theorem C9_counterexample :
    (dooshki_args_parse uintCtxt
        [some progTok, some ['-', '-', 'c', 'o', 'u', 'n', 't', '=']]
        [OptVal.vULong 5] [false]).err_log = []
  ∧ (dooshki_args_parse uintCtxt
        [some progTok, some ['-', '-', 'c', 'o', 'u', 'n', 't', '=']]
        [OptVal.vULong 5] [false]).errors_found = false
  ∧ (dooshki_args_parse uintCtxt
        [some progTok, some ['-', '-', 'c', 'o', 'u', 'n', 't', '=']]
        [OptVal.vULong 5] [false]).store = [OptVal.vULong 0] := by
  refine ⟨by decide, by decide, by decide⟩

/-- C9 (amended): for a UInt-kind option the value text is parsed as a
base-10 unsigned integer: text whose first character is `-` and text
whose parse stops before the end of the text (trailing non-numeric
characters; any nonempty text with no leading digits) yield the
invalid-number error; the EMPTY value text is accepted as the value 0
with no error; a well-formed numeral exceeding the platform's
unsigned-long range yields the distinct NumberTooLarge error, not
InvalidNumber. -/
theorem C9_uint_number_parsing (pfx name a : Token) :
    (a.head? = some '-' →
      process_uint_arg pfx name a =
        (OptVal.vULong (strtoul10 a).value, some (ErrEntry.invalidNumber a pfx name)))
  ∧ ((strtoul10 a).end_nul = false →
      process_uint_arg pfx name a =
        (OptVal.vULong (strtoul10 a).value, some (ErrEntry.invalidNumber a pfx name)))
  ∧ (a = [] → process_uint_arg pfx name a = (OptVal.vULong 0, none))
  ∧ (a ≠ [] → (∀ c ∈ a, isCDigit c = true) → digitsVal a > ULONG_MAX →
      process_uint_arg pfx name a =
        (OptVal.vULong ULONG_MAX, some (ErrEntry.numberTooLarge a pfx name))) := by
  refine ⟨?_, ?_, ?_, ?_⟩
  · intro h; simp [process_uint_arg, h]
  · intro h; simp [process_uint_arg, h]
  · intro h; subst h; simp [process_uint_arg, strtoul10, ULONG_MAX]
  · intro hne hd hbig
    have hs := strtoul10_all_digits hne hd
    rw [if_pos hbig] at hs
    obtain ⟨c, t, rfl⟩ := List.exists_cons_of_ne_nil hne
    have hdash := isCDigit_ne_dash (hd c (by simp))
    simp [process_uint_arg, hs, hdash]

/-- Witness for `C9_uint_number_parsing`: `-5` and `12x` are invalid, the
empty text is accepted as 0, and a 20-digit numeral is "too large". -/
theorem C9_uint_number_parsing_witness :
    process_uint_arg ['-', '-'] ['c'] ['-', '5'] =
      (OptVal.vULong (strtoul10 ['-', '5']).value,
        some (ErrEntry.invalidNumber ['-', '5'] ['-', '-'] ['c']))
  ∧ process_uint_arg ['-', '-'] ['c'] ['1', '2', 'x'] =
      (OptVal.vULong (strtoul10 ['1', '2', 'x']).value,
        some (ErrEntry.invalidNumber ['1', '2', 'x'] ['-', '-'] ['c']))
  ∧ process_uint_arg ['-', '-'] ['c'] [] = (OptVal.vULong 0, none)
  ∧ process_uint_arg ['-', '-'] ['c']
        ['9', '9', '9', '9', '9', '9', '9', '9', '9', '9',
         '9', '9', '9', '9', '9', '9', '9', '9', '9', '9'] =
      (OptVal.vULong ULONG_MAX,
        some (ErrEntry.numberTooLarge
          ['9', '9', '9', '9', '9', '9', '9', '9', '9', '9',
           '9', '9', '9', '9', '9', '9', '9', '9', '9', '9'] ['-', '-'] ['c'])) :=
  ⟨(C9_uint_number_parsing ['-', '-'] ['c'] _).1 rfl,
   (C9_uint_number_parsing ['-', '-'] ['c'] _).2.1 (by decide),
   (C9_uint_number_parsing ['-', '-'] ['c'] _).2.2.1 rfl,
   (C9_uint_number_parsing ['-', '-'] ['c'] _).2.2.2 (by decide) (by decide) (by decide)⟩

/-! ## C5: outcome determination -/

/-- C5: exactly one outcome is produced per parse call, as a function of
the flags accumulated by the full scan: HelpRequested iff the help flag is
set (regardless of errors or the version flag), else VersionRequested iff
the version flag is set, else ParseError iff any error was registered,
else Ok.  The last two conjuncts check the spec's example: for
`-h extra --bogus` the outcome is HelpRequested even though the
bogus-option error was registered during the scan. -/
theorem C5_outcome (ctxt : dooshki_args) (argv0 : List (Option Token))
    (store0 : List OptVal) (found0 : List Bool) :
    ((dooshki_args_parse ctxt argv0 store0 found0).ret = dooshki_args_ret.HELP_SHOWN
      ↔ (scan_state ctxt argv0 store0 found0).show_help = true)
  ∧ ((dooshki_args_parse ctxt argv0 store0 found0).ret = dooshki_args_ret.VER_SHOWN
      ↔ (scan_state ctxt argv0 store0 found0).show_help = false
        ∧ (scan_state ctxt argv0 store0 found0).show_version = true)
  ∧ ((dooshki_args_parse ctxt argv0 store0 found0).ret = dooshki_args_ret.PARSE_ERROR
      ↔ (scan_state ctxt argv0 store0 found0).show_help = false
        ∧ (scan_state ctxt argv0 store0 found0).show_version = false
        ∧ (scan_state ctxt argv0 store0 found0).errors_found = true)
  ∧ ((dooshki_args_parse ctxt argv0 store0 found0).ret = dooshki_args_ret.PARSE_OK
      ↔ (scan_state ctxt argv0 store0 found0).show_help = false
        ∧ (scan_state ctxt argv0 store0 found0).show_version = false
        ∧ (scan_state ctxt argv0 store0 found0).errors_found = false)
  ∧ (dooshki_args_parse emptyCtxt
        [some progTok, some ['-', 'h'], some ['e', 'x', 't', 'r', 'a'],
         some ['-', '-', 'b', 'o', 'g', 'u', 's']] [] []).ret
      = dooshki_args_ret.HELP_SHOWN
  ∧ (dooshki_args_parse emptyCtxt
        [some progTok, some ['-', 'h'], some ['e', 'x', 't', 'r', 'a'],
         some ['-', '-', 'b', 'o', 'g', 'u', 's']] [] []).errors_found = true := by
  refine ⟨?_, ?_, ?_, ?_, by decide, by decide⟩ <;>
  · cases hh : (scan_state ctxt argv0 store0 found0).show_help <;>
    cases hv : (scan_state ctxt argv0 store0 found0).show_version <;>
    cases he : (scan_state ctxt argv0 store0 found0).errors_found <;>
      simp [dooshki_args_parse, hh, hv, he]

/-! ## C4: long-option prefix matching -/

/-- C matching condition transcribed from the spec's words, for the
refinement comparison with `long_opt_search`: the descriptor's non-null
long name has as its initial N characters exactly the candidate name,
where N is the candidate name's length. -/
def spec_long_match_pred (cand : Token) (o : dooshki_opt) : Bool :=
  match o.long_name with
  | some ln => ln.take cand.length == cand
  | none => false

/-- First table entry (in table order) satisfying `spec_long_match_pred`,
transcribed from the spec's words. -/
def spec_first_long_match : List dooshki_opt → Token → Nat → Option (Nat × dooshki_opt)
  | [], _, _ => none
  | o :: rest, cand, idx =>
    if spec_long_match_pred cand o then some (idx, o)
    else spec_first_long_match rest cand (idx + 1)

/-- `strncmp(s, ln, n) == 0` (with `n` no longer than `s`) says exactly
that the first `n` characters of `s` and of `ln` agree. -/
theorem strncmp0_eq_iff (n : Nat) (s ln : Token) (h : n ≤ s.length) :
    strncmp0 s ln n = Ordering.eq ↔ ln.take n = s.take n := by
  induction n generalizing s ln with
  | zero => simp [strncmp0]
  | succ n ih =>
    cases s with
    | nil => simp at h
    | cons a as =>
      cases ln with
      | nil => simp [strncmp0]
      | cons b bs =>
        by_cases hab : a = b
        · subst hab
          have := ih as bs (by simpa using h)
          simp [strncmp0, this]
        · rw [show strncmp0 (a :: as) (b :: bs) (n + 1)
              = (if a < b then Ordering.lt else Ordering.gt) from by
            simp only [strncmp0, if_neg hab]]
          constructor
          · intro hx
            by_cases hlt : a < b
            · rw [if_pos hlt] at hx; exact absurd hx (by decide)
            · rw [if_neg hlt] at hx; exact absurd hx (by decide)
          · intro hc
            rw [List.take_succ_cons, List.take_succ_cons] at hc
            exact absurd ((List.cons_eq_cons.mp hc).1).symm hab

/-- The table search against an abstract candidate name: with `cand` the
initial `opt_len` characters of the token text `after`, the `strncmp`
test of each entry agrees with the spec-side predicate, so the fused
first-match loop agrees with the spec-side first-match search. -/
theorem long_opt_search_eq_spec (tbl : List dooshki_opt) (after cand : Token) (idx : Nat)
    (hwf : ∀ o ∈ tbl, o.short_name ≠ none ∨ o.long_name ≠ none)
    (hlen : cand.length ≤ after.length)
    (htake : after.take cand.length = cand) :
    long_opt_search tbl after cand.length idx = spec_first_long_match tbl cand idx := by
  induction tbl generalizing idx with
  | nil => rfl
  | cons o rest ih =>
    have hno : ¬ (o.short_name = none ∧ o.long_name = none) := by
      rcases hwf o (by simp) with h | h
      · exact fun hc => h hc.1
      · exact fun hc => h hc.2
    have hrest : ∀ o' ∈ rest, o'.short_name ≠ none ∨ o'.long_name ≠ none :=
      fun o' ho' => hwf o' (by simp [ho'])
    rw [long_opt_search, spec_first_long_match, if_neg hno]
    cases hln : o.long_name with
    | none =>
      have hp : spec_long_match_pred cand o = false := by
        simp [spec_long_match_pred, hln]
      simp only [hp, Bool.false_eq_true, if_false]
      exact ih (idx + 1) hrest
    | some ln =>
      have hiff := strncmp0_eq_iff cand.length after ln hlen
      rw [htake] at hiff
      by_cases hm : strncmp0 after ln cand.length = Ordering.eq
      · have hp : spec_long_match_pred cand o = true := by
          simp [spec_long_match_pred, hln, hiff.mp hm]
        simp only [hm, if_pos, hp, if_true]
      · have hp : spec_long_match_pred cand o = false := by
          simp only [spec_long_match_pred, hln, beq_eq_false_iff_ne, ne_eq]
          exact fun hc => hm (hiff.mpr hc)
        simp only [hm, if_neg, hp, Bool.false_eq_true, if_false]
        exact ih (idx + 1) hrest

/-- C4: on a sentinel-free option table, the long-option table search
used by `process_long_opt` (length-bounded `strncmp` of the token's text
after the dashes against each non-null long name, with the bound the
candidate name's length) finds exactly the first entry in table order
whose long name begins with the candidate name (the text up to the first
`=`); in particular a candidate that is a proper prefix of a table long
name matches that descriptor. -/
theorem C4_long_prefix_match (tbl : List dooshki_opt) (after : Token)
    (hwf : ∀ o ∈ tbl, o.short_name ≠ none ∨ o.long_name ≠ none) :
    long_opt_search tbl after (after.takeWhile not_eq_sign).length 0
      = spec_first_long_match tbl (after.takeWhile not_eq_sign) 0 :=
  long_opt_search_eq_spec tbl after (after.takeWhile not_eq_sign) 0 hwf
    (List.takeWhile_prefix _).length_le
    (List.prefix_iff_eq_take.mp (List.takeWhile_prefix _)).symm

/-- Witness for `C4_long_prefix_match`: in the `--count` table, the
candidate `cou` (from the token text `cou=7`) is a proper prefix of
`count` and matches that descriptor. -/
theorem C4_long_prefix_match_witness :
    long_opt_search [countOpt] ['c', 'o', 'u', '=', '7']
        ((['c', 'o', 'u', '=', '7'] : Token).takeWhile not_eq_sign).length 0
      = spec_first_long_match [countOpt]
          ((['c', 'o', 'u', '=', '7'] : Token).takeWhile not_eq_sign) 0
  ∧ spec_first_long_match [countOpt]
        ((['c', 'o', 'u', '=', '7'] : Token).takeWhile not_eq_sign) 0
      = some (0, countOpt) :=
  ⟨C4_long_prefix_match [countOpt] ['c', 'o', 'u', '=', '7']
      (by rintro o ho; rcases List.mem_singleton.mp ho with rfl; left; simp [countOpt]),
   rfl⟩

/-! ## C1 / C8 counterexamples -/

/-- C1 counterexample: the `--` marker token is NOT left in the final
compacted sequence — `dooshki_args_parse` nulls the marker's slot (the
`(*argv)[arg_iter] = NULL` at the end of the dash branch also runs in the
stopper case), so compaction removes it.  Tokens after it survive. -/
theorem C1_counterexample :
    some ['-', '-'] ∉ final_args (dooshki_args_parse emptyCtxt
        [some progTok, some ['-', '-'], some ['-', 'x']] [] [])
  ∧ final_args (dooshki_args_parse emptyCtxt
        [some progTok, some ['-', '-'], some ['-', 'x']] [] [])
      = [some progTok, some ['-', 'x']] :=
  ⟨by decide, by decide⟩

/-! ## Frame lemmas: which state components each routine can touch -/

/-- A successful value search returns an index in `[j, j + n)`. -/
theorem find_value_token_bounds (argv : List (Option Token)) (n j v : Nat)
    (h : find_value_token argv n j = some v) : j ≤ v ∧ v < j + n := by
  induction n generalizing j with
  | zero => simp [find_value_token] at h
  | succ n ih =>
    rw [find_value_token] at h
    rcases hg : argv.getD j none with _ | t
    · simp only [hg] at h
      rcases ih (j + 1) h with ⟨h1, h2⟩
      omega
    · simp only [hg] at h
      by_cases hd : t = dashDash
      · rw [if_pos hd] at h; exact absurd h (by simp)
      · rw [if_neg hd] at h
        injection h with h'
        omega

@[simp] theorem consume_value_store (argc : Nat) (s : ParseState) (i : Nat) :
    (consume_value argc s i).1.store = s.store := by
  unfold consume_value
  rcases h : find_value_token s.argv (argc - (i + 1)) (i + 1) with _ | vi <;> simp [h]

@[simp] theorem consume_value_found (argc : Nat) (s : ParseState) (i : Nat) :
    (consume_value argc s i).1.found = s.found := by
  unfold consume_value
  rcases h : find_value_token s.argv (argc - (i + 1)) (i + 1) with _ | vi <;> simp [h]

@[simp] theorem consume_value_show_help (argc : Nat) (s : ParseState) (i : Nat) :
    (consume_value argc s i).1.show_help = s.show_help := by
  unfold consume_value
  rcases h : find_value_token s.argv (argc - (i + 1)) (i + 1) with _ | vi <;> simp [h]

@[simp] theorem consume_value_show_version (argc : Nat) (s : ParseState) (i : Nat) :
    (consume_value argc s i).1.show_version = s.show_version := by
  unfold consume_value
  rcases h : find_value_token s.argv (argc - (i + 1)) (i + 1) with _ | vi <;> simp [h]

@[simp] theorem consume_value_errors_found (argc : Nat) (s : ParseState) (i : Nat) :
    (consume_value argc s i).1.errors_found = s.errors_found := by
  unfold consume_value
  rcases h : find_value_token s.argv (argc - (i + 1)) (i + 1) with _ | vi <;> simp [h]

@[simp] theorem consume_value_err_log (argc : Nat) (s : ParseState) (i : Nat) :
    (consume_value argc s i).1.err_log = s.err_log := by
  unfold consume_value
  rcases h : find_value_token s.argv (argc - (i + 1)) (i + 1) with _ | vi <;> simp [h]

/-- `consume_value` leaves argv alone or nulls one slot at index `≥ i+1`. -/
theorem consume_value_argv (argc : Nat) (s : ParseState) (i : Nat) :
    (consume_value argc s i).1.argv = s.argv
  ∨ ∃ vi, i + 1 ≤ vi ∧ vi < argc ∧ (consume_value argc s i).1.argv = s.argv.set vi none := by
  unfold consume_value
  rcases h : find_value_token s.argv (argc - (i + 1)) (i + 1) with _ | vi
  · simp [h]
  · right
    rcases find_value_token_bounds _ _ _ _ h with ⟨h1, h2⟩
    exact ⟨vi, h1, by omega, by simp [h]⟩

@[simp] theorem apply_opt_arg_argv (s : ParseState) (idx : Nat) (o : dooshki_opt)
    (b : Bool) (a : Token) : (apply_opt_arg s idx o b a).argv = s.argv := by
  simp [apply_opt_arg]

@[simp] theorem apply_opt_arg_found (s : ParseState) (idx : Nat) (o : dooshki_opt)
    (b : Bool) (a : Token) : (apply_opt_arg s idx o b a).found = s.found := by
  simp [apply_opt_arg]

@[simp] theorem apply_opt_arg_show_help (s : ParseState) (idx : Nat) (o : dooshki_opt)
    (b : Bool) (a : Token) : (apply_opt_arg s idx o b a).show_help = s.show_help := by
  simp [apply_opt_arg]

@[simp] theorem apply_opt_arg_show_version (s : ParseState) (idx : Nat) (o : dooshki_opt)
    (b : Bool) (a : Token) : (apply_opt_arg s idx o b a).show_version = s.show_version := by
  simp [apply_opt_arg]

theorem handle_long_match_show_help (argc : Nat) (s : ParseState) (i idx : Nat)
    (o : dooshki_opt) (ia : Option Token) :
    (handle_long_match argc s i idx o ia).show_help = s.show_help := by
  unfold handle_long_match
  cases hf : o.has_found <;> cases o.type <;> cases ia <;>
    simp only [hf, Bool.false_eq_true, if_true, if_false] <;>
    (try split) <;> simp

theorem handle_long_match_show_version (argc : Nat) (s : ParseState) (i idx : Nat)
    (o : dooshki_opt) (ia : Option Token) :
    (handle_long_match argc s i idx o ia).show_version = s.show_version := by
  unfold handle_long_match
  cases hf : o.has_found <;> cases o.type <;> cases ia <;>
    simp only [hf, Bool.false_eq_true, if_true, if_false] <;>
    (try split) <;> simp

theorem handle_long_match_found (argc : Nat) (s : ParseState) (i idx : Nat)
    (o : dooshki_opt) (ia : Option Token) :
    (handle_long_match argc s i idx o ia).found
      = (if o.has_found then s.found.set idx true else s.found) := by
  unfold handle_long_match
  cases hf : o.has_found <;> cases o.type <;> cases ia <;>
    simp only [hf, Bool.false_eq_true, if_true, if_false] <;>
    (try split) <;> simp

theorem handle_short_match_show_help (argc : Nat) (s : ParseState) (i idx : Nat)
    (o : dooshki_opt) :
    (handle_short_match argc s i idx o).show_help = s.show_help := by
  unfold handle_short_match
  cases hf : o.has_found <;> cases o.type <;>
    simp only [hf, Bool.false_eq_true, if_true, if_false] <;>
    (try split) <;> simp

theorem handle_short_match_show_version (argc : Nat) (s : ParseState) (i idx : Nat)
    (o : dooshki_opt) :
    (handle_short_match argc s i idx o).show_version = s.show_version := by
  unfold handle_short_match
  cases hf : o.has_found <;> cases o.type <;>
    simp only [hf, Bool.false_eq_true, if_true, if_false] <;>
    (try split) <;> simp

theorem handle_short_match_found (argc : Nat) (s : ParseState) (i idx : Nat)
    (o : dooshki_opt) :
    (handle_short_match argc s i idx o).found
      = (if o.has_found then s.found.set idx true else s.found) := by
  unfold handle_short_match
  cases hf : o.has_found <;> cases o.type <;>
    simp only [hf, Bool.false_eq_true, if_true, if_false] <;>
    (try split) <;> simp

/-- Setting any found-flag never clears another. -/
theorem getD_set_true_mono (l : List Bool) (j k : Nat) (h : l.getD k false = true) :
    (l.set j true).getD k false = true := by
  by_cases hjk : j = k
  · subst hjk
    by_cases hj : j < l.length
    · simp [List.getD_eq_getElem?_getD, List.getElem?_set_eq_of_lt _ hj]
    · rw [List.set_eq_of_length_le (Nat.le_of_not_lt hj)]; exact h
  · rw [List.getD_eq_getElem?_getD, List.getElem?_set_ne hjk, ← List.getD_eq_getElem?_getD]
    exact h

theorem getD_set_true_self (l : List Bool) (j : Nat) (hj : j < l.length) :
    (l.set j true).getD j false = true := by
  simp [List.getD_eq_getElem?_getD, List.getElem?_set_eq_of_lt _ hj]

theorem process_long_opt_show_help_mono (argc : Nat) (tbl : List dooshki_opt)
    (s : ParseState) (i : Nat) (tok : Token) (h : s.show_help = true) :
    (process_long_opt argc tbl s i tok).show_help = true := by
  unfold process_long_opt
  by_cases h1 : tok = helpLongTok
  · simp [h1, apply_ite ParseState.show_help, h]
  · by_cases h2 : tok = verLongTok
    · simp [h1, h2, apply_ite ParseState.show_help, h]
    · simp only [h1, h2, if_false]
      split
      · exact (handle_long_match_show_help _ _ _ _ _ _).trans h
      · exact h

theorem process_long_opt_show_version_mono (argc : Nat) (tbl : List dooshki_opt)
    (s : ParseState) (i : Nat) (tok : Token) (h : s.show_version = true) :
    (process_long_opt argc tbl s i tok).show_version = true := by
  unfold process_long_opt
  by_cases h1 : tok = helpLongTok
  · simp [h1, apply_ite ParseState.show_version, h]
  · by_cases h2 : tok = verLongTok
    · simp [h1, h2, apply_ite ParseState.show_version, h]
    · simp only [h1, h2, if_false]
      split
      · exact (handle_long_match_show_version _ _ _ _ _ _).trans h
      · exact h

theorem process_long_opt_excl (argc : Nat) (tbl : List dooshki_opt)
    (s : ParseState) (i : Nat) (tok : Token)
    (h : s.show_help = false ∨ s.show_version = false) :
    (process_long_opt argc tbl s i tok).show_help = false
  ∨ (process_long_opt argc tbl s i tok).show_version = false := by
  unfold process_long_opt
  by_cases h1 : tok = helpLongTok
  · rw [if_pos h1]
    cases hv : s.show_version
    · simp [hv]
    · rcases h with hh | hv'
      · simp [hv, hh]
      · rw [hv] at hv'; exact absurd hv' (by decide)
  · by_cases h2 : tok = verLongTok
    · rw [if_neg h1, if_pos h2]
      cases hh : s.show_help
      · simp [hh]
      · rcases h with hh' | hv
        · rw [hh] at hh'; exact absurd hh' (by decide)
        · simp [hh, hv]
    · simp only [h1, h2, if_false]
      split
      · rw [handle_long_match_show_help, handle_long_match_show_version]; exact h
      · exact h

theorem process_long_opt_found_mono (argc : Nat) (tbl : List dooshki_opt)
    (s : ParseState) (i : Nat) (tok : Token) (k : Nat)
    (h : s.found.getD k false = true) :
    (process_long_opt argc tbl s i tok).found.getD k false = true := by
  unfold process_long_opt
  by_cases h1 : tok = helpLongTok
  · rw [if_pos h1]
    simp only [apply_ite ParseState.found, ite_self]
    exact h
  · by_cases h2 : tok = verLongTok
    · rw [if_neg h1, if_pos h2]
      simp only [apply_ite ParseState.found, ite_self]
      exact h
    · simp only [h1, h2, if_false]
      split
      · rw [handle_long_match_found]
        split
        · exact getD_set_true_mono _ _ _ h
        · exact h
      · exact h

theorem short_opts_loop_show_help_mono (argc : Nat) (tbl : List dooshki_opt) (i : Nat)
    (cs : List Char) : ∀ s : ParseState, s.show_help = true →
    (short_opts_loop argc tbl i s cs).show_help = true := by
  induction cs with
  | nil => intro s h; exact h
  | cons c rest ih =>
    intro s h
    rw [short_opts_loop]
    apply ih
    unfold short_opt_step
    by_cases hc : c = 'h'
    · simp [hc, apply_ite ParseState.show_help, h]
    · by_cases hV : c = 'V'
      · simp [hc, hV, apply_ite ParseState.show_help, h]
      · simp only [hc, hV, if_false]
        split
        · exact (handle_short_match_show_help _ _ _ _ _).trans h
        · exact h

theorem short_opts_loop_show_version_mono (argc : Nat) (tbl : List dooshki_opt) (i : Nat)
    (cs : List Char) : ∀ s : ParseState, s.show_version = true →
    (short_opts_loop argc tbl i s cs).show_version = true := by
  induction cs with
  | nil => intro s h; exact h
  | cons c rest ih =>
    intro s h
    rw [short_opts_loop]
    apply ih
    unfold short_opt_step
    by_cases hc : c = 'h'
    · simp [hc, apply_ite ParseState.show_version, h]
    · by_cases hV : c = 'V'
      · simp [hc, hV, apply_ite ParseState.show_version, h]
      · simp only [hc, hV, if_false]
        split
        · exact (handle_short_match_show_version _ _ _ _ _).trans h
        · exact h

theorem short_opts_loop_excl (argc : Nat) (tbl : List dooshki_opt) (i : Nat)
    (cs : List Char) : ∀ s : ParseState,
    s.show_help = false ∨ s.show_version = false →
    (short_opts_loop argc tbl i s cs).show_help = false
  ∨ (short_opts_loop argc tbl i s cs).show_version = false := by
  induction cs with
  | nil => intro s h; exact h
  | cons c rest ih =>
    intro s h
    rw [short_opts_loop]
    apply ih
    unfold short_opt_step
    by_cases hc : c = 'h'
    · cases hv : s.show_version
      · simp [hc, hv]
      · rcases h with hh | hv'
        · simp [hc, hv, hh]
        · rw [hv] at hv'; exact absurd hv' (by decide)
    · by_cases hV : c = 'V'
      · cases hh : s.show_help
        · simp [hc, hV, hh]
        · rcases h with hh' | hv
          · rw [hh] at hh'; exact absurd hh' (by decide)
          · simp [hc, hV, hh, hv]
      · simp only [hc, hV, if_false]
        split
        · rw [handle_short_match_show_help, handle_short_match_show_version]; exact h
        · exact h

theorem short_opts_loop_found_mono (argc : Nat) (tbl : List dooshki_opt) (i : Nat)
    (cs : List Char) (k : Nat) : ∀ s : ParseState, s.found.getD k false = true →
    (short_opts_loop argc tbl i s cs).found.getD k false = true := by
  induction cs with
  | nil => intro s h; exact h
  | cons c rest ih =>
    intro s h
    rw [short_opts_loop]
    apply ih
    unfold short_opt_step
    by_cases hc : c = 'h'
    · rw [if_pos hc]
      simp only [apply_ite ParseState.found, ite_self]
      exact h
    · by_cases hV : c = 'V'
      · rw [if_neg hc, if_pos hV]
        simp only [apply_ite ParseState.found, ite_self]
        exact h
      · simp only [hc, hV, if_false]
        split
        · rw [handle_short_match_found]
          split
          · exact getD_set_true_mono _ _ _ h
          · exact h
        · exact h

theorem parse_scan_show_help_mono (argc : Nat) (tbl : List dooshki_opt) (n : Nat) :
    ∀ i : Nat, ∀ s : ParseState, s.show_help = true →
    (parse_scan argc tbl n i s).show_help = true := by
  induction n with
  | zero => intro i s h; exact h
  | succ n ih =>
    intro i s h
    rw [parse_scan]
    rcases hg : s.argv.getD i none with _ | tok
    · simp only [hg]; exact ih _ _ h
    · simp only [hg]
      by_cases hd : tok.head? = some '-'
      · rw [if_pos hd]
        by_cases h2 : tok[1]? = some '-'
        · rw [if_pos h2]
          by_cases h3 : tok[2]? = none
          · rw [if_pos h3]; exact h
          · rw [if_neg h3]
            exact ih _ _ (process_long_opt_show_help_mono _ _ _ _ _ h)
        · rw [if_neg h2]
          exact ih _ _ (short_opts_loop_show_help_mono _ _ _ _ _ h)
      · rw [if_neg hd]; exact ih _ _ h

theorem parse_scan_show_version_mono (argc : Nat) (tbl : List dooshki_opt) (n : Nat) :
    ∀ i : Nat, ∀ s : ParseState, s.show_version = true →
    (parse_scan argc tbl n i s).show_version = true := by
  induction n with
  | zero => intro i s h; exact h
  | succ n ih =>
    intro i s h
    rw [parse_scan]
    rcases hg : s.argv.getD i none with _ | tok
    · simp only [hg]; exact ih _ _ h
    · simp only [hg]
      by_cases hd : tok.head? = some '-'
      · rw [if_pos hd]
        by_cases h2 : tok[1]? = some '-'
        · rw [if_pos h2]
          by_cases h3 : tok[2]? = none
          · rw [if_pos h3]; exact h
          · rw [if_neg h3]
            exact ih _ _ (process_long_opt_show_version_mono _ _ _ _ _ h)
        · rw [if_neg h2]
          exact ih _ _ (short_opts_loop_show_version_mono _ _ _ _ _ h)
      · rw [if_neg hd]; exact ih _ _ h

theorem parse_scan_excl (argc : Nat) (tbl : List dooshki_opt) (n : Nat) :
    ∀ i : Nat, ∀ s : ParseState, s.show_help = false ∨ s.show_version = false →
    (parse_scan argc tbl n i s).show_help = false
  ∨ (parse_scan argc tbl n i s).show_version = false := by
  induction n with
  | zero => intro i s h; exact h
  | succ n ih =>
    intro i s h
    rw [parse_scan]
    rcases hg : s.argv.getD i none with _ | tok
    · simp only [hg]; exact ih _ _ h
    · simp only [hg]
      by_cases hd : tok.head? = some '-'
      · rw [if_pos hd]
        by_cases h2 : tok[1]? = some '-'
        · rw [if_pos h2]
          by_cases h3 : tok[2]? = none
          · rw [if_pos h3]; exact h
          · rw [if_neg h3]
            exact ih _ _ (process_long_opt_excl _ _ _ _ _ h)
        · rw [if_neg h2]
          exact ih _ _ (short_opts_loop_excl _ _ _ _ _ h)
      · rw [if_neg hd]; exact ih _ _ h

theorem parse_scan_found_mono (argc : Nat) (tbl : List dooshki_opt) (n : Nat) (k : Nat) :
    ∀ i : Nat, ∀ s : ParseState, s.found.getD k false = true →
    (parse_scan argc tbl n i s).found.getD k false = true := by
  induction n with
  | zero => intro i s h; exact h
  | succ n ih =>
    intro i s h
    rw [parse_scan]
    rcases hg : s.argv.getD i none with _ | tok
    · simp only [hg]; exact ih _ _ h
    · simp only [hg]
      by_cases hd : tok.head? = some '-'
      · rw [if_pos hd]
        by_cases h2 : tok[1]? = some '-'
        · rw [if_pos h2]
          by_cases h3 : tok[2]? = none
          · rw [if_pos h3]; exact h
          · rw [if_neg h3]
            exact ih _ _ (process_long_opt_found_mono _ _ _ _ _ _ h)
        · rw [if_neg h2]
          exact ih _ _ (short_opts_loop_found_mono _ _ _ _ _ _ h)
      · rw [if_neg hd]; exact ih _ _ h

/-! ## Deflation: the fill/pull compaction computes the stable filter -/

theorem getD_eq_none_of_le (l : List (Option Token)) (k : Nat) (h : l.length ≤ k) :
    l.getD k none = none := by
  rw [List.getD_eq_getElem?_getD, List.getElem?_eq_none h]; rfl

theorem lt_length_of_getD_ne_none (l : List (Option Token)) (k : Nat)
    (h : l.getD k none ≠ none) : k < l.length := by
  by_contra hc
  exact h (getD_eq_none_of_le l k (Nat.le_of_not_lt hc))

theorem getD_get (l : List (Option Token)) (k : Nat) (h : k < l.length) :
    l.getD k none = l[k] := by
  rw [List.getD_eq_getElem?_getD, List.getElem?_eq_getElem h]; rfl

theorem getElem?_of_getD_eq_some (l : List (Option Token)) (k : Nat) (t : Token)
    (h : l.getD k none = some t) : l[k]? = some (some t) := by
  rcases hq : l[k]? with _ | x
  · rw [List.getD_eq_getElem?_getD, hq] at h; exact absurd h (by simp)
  · rw [List.getD_eq_getElem?_getD, hq] at h
    simp only [Option.getD_some] at h
    rw [h]

/-- An unsuccessful pull search means every slot in range is null. -/
theorem find_pull_none (argv : List (Option Token)) (n : Nat) : ∀ j : Nat,
    find_pull argv n j = none → ∀ k, j ≤ k → k < j + n → argv.getD k none = none := by
  induction n with
  | zero => intro j _ k h1 h2; omega
  | succ n ih =>
    intro j h k h1 h2
    rw [find_pull] at h
    rcases hg : argv.getD j none with _ | t
    · simp only [hg] at h
      rcases Nat.eq_or_lt_of_le h1 with rfl | hlt
      · exact hg
      · exact ih (j + 1) h k hlt (by omega)
    · simp only [hg] at h
      exact absurd h (by simp)

/-- A successful pull search returns the first non-null slot in range. -/
theorem find_pull_some (argv : List (Option Token)) (n : Nat) : ∀ j p : Nat,
    find_pull argv n j = some p →
    j ≤ p ∧ p < j + n ∧ argv.getD p none ≠ none
      ∧ ∀ k, j ≤ k → k < p → argv.getD k none = none := by
  induction n with
  | zero => intro j p h; simp [find_pull] at h
  | succ n ih =>
    intro j p h
    rw [find_pull] at h
    rcases hg : argv.getD j none with _ | t
    · simp only [hg] at h
      obtain ⟨h1, h2, h3, h4⟩ := ih (j + 1) p h
      refine ⟨by omega, by omega, h3, ?_⟩
      intro k hk1 hk2
      rcases Nat.eq_or_lt_of_le hk1 with rfl | hlt
      · exact hg
      · exact h4 k hlt hk2
    · simp only [hg] at h
      injection h with h'
      subst h'
      exact ⟨le_refl _, by omega, by rw [hg]; simp, fun k hk1 hk2 => by omega⟩

theorem filterMap_id_eq_nil (l : List (Option Token)) (h : ∀ x ∈ l, x = none) :
    l.filterMap id = [] := by
  induction l with
  | nil => rfl
  | cons x xs ih =>
    have hx := h x (by simp)
    subst hx
    simpa using ih (fun y hy => h y (List.mem_cons_of_mem _ hy))

/-- Dropping over a run of null slots does not change the filtered list. -/
theorem filterMap_id_drop_congr (l : List (Option Token)) :
    ∀ (d i : Nat), (∀ k, i ≤ k → k < i + d → l.getD k none = none) →
    (l.drop i).filterMap id = (l.drop (i + d)).filterMap id := by
  intro d
  induction d with
  | zero => intro i _; rfl
  | succ d ih =>
    intro i hnone
    by_cases hi : i < l.length
    · have hni : l[i] = none := by
        rw [← getD_get _ _ hi]; exact hnone i (le_refl _) (by omega)
      rw [List.drop_eq_getElem_cons hi, hni]
      have hred : ((none : Option Token) :: l.drop (i + 1)).filterMap id
          = (l.drop (i + 1)).filterMap id := rfl
      rw [hred, show i + (d + 1) = (i + 1) + d from by omega]
      exact ih (i + 1) (fun k hk1 hk2 => hnone k (by omega) (by omega))
    · rw [List.drop_eq_nil_of_le (by omega), List.drop_eq_nil_of_le (by omega)]

/-- Correctness of the C fill/pull loop: starting from any fill index with
enough fuel, the loop reports `fill` plus the number of surviving tokens
from `fill` on, the array up to the reported count is the untouched part
before `fill` followed by exactly those tokens in order, and the array
length never changes. -/
theorem deflate_loop_spec : ∀ (n : Nat) (argv : List (Option Token)) (fill : Nat),
    argv.length ≤ fill + n →
    (deflate_loop n argv fill).2 = fill + ((argv.drop fill).filterMap id).length
    ∧ (deflate_loop n argv fill).1.take ((deflate_loop n argv fill).2)
        = argv.take fill ++ ((argv.drop fill).filterMap id).map some
    ∧ (deflate_loop n argv fill).1.length = argv.length := by
  intro n
  induction n with
  | zero =>
    intro argv fill hlen
    have hd : argv.drop fill = [] := List.drop_eq_nil_of_le (by omega)
    rw [deflate_loop, hd]
    refine ⟨by simp, ?_, rfl⟩
    have hta : argv.take fill = argv := List.take_of_length_le (by omega)
    simp [hta]
  | succ n ih =>
    intro argv fill hlen
    rcases hg : argv.getD fill none with _ | t
    · rcases hp : find_pull argv (argv.length - (fill + 1)) (fill + 1) with _ | p
      · have hstep : deflate_loop (n + 1) argv fill = (argv, fill) := by
          rw [deflate_loop]; simp only [hg, hp]
        have hall : ∀ x ∈ argv.drop fill, x = none := by
          intro x hx
          rcases List.mem_iff_getElem?.mp hx with ⟨m, hm⟩
          rw [List.getElem?_drop] at hm
          have hx' : argv.getD (fill + m) none = x := by
            rw [List.getD_eq_getElem?_getD, hm]; rfl
          by_cases hm0 : m = 0
          · subst hm0; rw [← hx']; simpa using hg
          · by_cases hbig : fill + m < argv.length
            · rw [← hx']
              exact find_pull_none argv _ _ hp (fill + m) (by omega) (by omega)
            · rw [← hx']
              exact getD_eq_none_of_le _ _ (by omega)
        have hnil : (argv.drop fill).filterMap id = [] := filterMap_id_eq_nil _ hall
        rw [hstep, hnil]
        exact ⟨by simp, by simp, rfl⟩
      · obtain ⟨hp1, hp2, hp3, hp4⟩ := find_pull_some argv _ _ _ hp
        have hplen : p < argv.length := lt_length_of_getD_ne_none _ _ hp3
        obtain ⟨t, ht⟩ : ∃ t, argv.getD p none = some t := by
          rcases hq : argv.getD p none with _ | t
          · exact absurd hq hp3
          · exact ⟨t, rfl⟩
        have hfl : fill < argv.length := by omega
        have hlen1 : ((argv.set fill (argv.getD p none)).set p none).length = argv.length := by
          simp
        have h1fill : ((argv.set fill (argv.getD p none)).set p none).getD fill none
            = some t := by
          rw [List.getD_eq_getElem?_getD, List.getElem?_set_ne (by omega),
            List.getElem?_set_eq_of_lt _ hfl, ht]
          rfl
        have hstep : deflate_loop (n + 1) argv fill
            = deflate_loop n ((argv.set fill (argv.getD p none)).set p none) (fill + 1) := by
          rw [deflate_loop]; simp only [hg, hp, h1fill]
        rw [hstep]
        obtain ⟨ha, hb, hc⟩ := ih ((argv.set fill (argv.getD p none)).set p none) (fill + 1)
          (by rw [hlen1]; omega)
        have hdropA : argv.drop fill = none :: argv.drop (fill + 1) := by
          rw [List.drop_eq_getElem_cons hfl]
          congr 1
          rw [← getD_get _ _ hfl, hg]
        have hcong1 : (argv.drop (fill + 1)).filterMap id = (argv.drop p).filterMap id := by
          have := filterMap_id_drop_congr argv (p - (fill + 1)) (fill + 1)
            (fun k hk1 hk2 => hp4 k hk1 (by omega))
          rwa [show (fill + 1) + (p - (fill + 1)) = p from by omega] at this
        have hdropP : argv.drop p = some t :: argv.drop (p + 1) := by
          rw [List.drop_eq_getElem_cons hplen]
          congr 1
          rw [← getD_get _ _ hplen, ht]
        have hA : (argv.drop fill).filterMap id = t :: (argv.drop (p + 1)).filterMap id := by
          rw [hdropA]
          have hred : ((none : Option Token) :: argv.drop (fill + 1)).filterMap id
              = (argv.drop (fill + 1)).filterMap id := rfl
          rw [hred, hcong1, hdropP]
          rfl
        have h1drop : ∀ k, fill + 1 ≤ k → k < p + 1 →
            ((argv.set fill (argv.getD p none)).set p none).getD k none = none := by
          intro k h1 h2
          by_cases hkp : k = p
          · subst hkp
            rw [List.getD_eq_getElem?_getD,
              List.getElem?_set_eq_of_lt _ (by rw [List.length_set]; exact hplen)]
            rfl
          · rw [List.getD_eq_getElem?_getD, List.getElem?_set_ne (by omega),
              List.getElem?_set_ne (by omega), ← List.getD_eq_getElem?_getD]
            exact hp4 k h1 (by omega)
        have h1tail : ((argv.set fill (argv.getD p none)).set p none).drop (p + 1)
            = argv.drop (p + 1) := by
          apply List.ext_getElem?
          intro m
          rw [List.getElem?_drop, List.getElem?_drop, List.getElem?_set_ne (by omega),
            List.getElem?_set_ne (by omega)]
        have hcong2 : (((argv.set fill (argv.getD p none)).set p none).drop (fill + 1)).filterMap id
            = (argv.drop (p + 1)).filterMap id := by
          have := filterMap_id_drop_congr ((argv.set fill (argv.getD p none)).set p none)
            ((p + 1) - (fill + 1)) (fill + 1)
            (fun k hk1 hk2 => h1drop k hk1 (by omega))
          rw [show (fill + 1) + ((p + 1) - (fill + 1)) = p + 1 from by omega] at this
          rw [this, h1tail]
        have hB : (argv.drop fill).filterMap id
            = t :: (((argv.set fill (argv.getD p none)).set p none).drop (fill + 1)).filterMap id := by
          rw [hA, hcong2]
        have h1takefill : ((argv.set fill (argv.getD p none)).set p none).take fill
            = argv.take fill := by
          apply List.ext_getElem?
          intro m
          rw [List.getElem?_take, List.getElem?_take]
          by_cases hm : m < fill
          · rw [if_pos hm, if_pos hm, List.getElem?_set_ne (by omega),
              List.getElem?_set_ne (by omega)]
          · rw [if_neg hm, if_neg hm]
        have h1take : ((argv.set fill (argv.getD p none)).set p none).take (fill + 1)
            = argv.take fill ++ [some t] := by
          rw [List.take_succ, h1takefill]
          congr 1
          rw [getElem?_of_getD_eq_some _ _ _ h1fill]
          rfl
        refine ⟨?_, ?_, by rw [hc, hlen1]⟩
        · rw [ha, hB]
          simp only [List.length_cons]
          omega
        · rw [hb, hB, h1take]
          simp [List.append_assoc]
    · have hlt : fill < argv.length := lt_length_of_getD_ne_none _ _ (by rw [hg]; simp)
      have hstep : deflate_loop (n + 1) argv fill = deflate_loop n argv (fill + 1) := by
        rw [deflate_loop]; simp only [hg]
      rw [hstep]
      obtain ⟨ha, hb, hc⟩ := ih argv (fill + 1) (by omega)
      have hdrop : argv.drop fill = some t :: argv.drop (fill + 1) := by
        rw [List.drop_eq_getElem_cons hlt]
        congr 1
        rw [← getD_get _ _ hlt, hg]
      have htake : argv.take (fill + 1) = argv.take fill ++ [some t] := by
        rw [List.take_succ]
        congr 1
        rw [getElem?_of_getD_eq_some _ _ _ hg]
        rfl
      refine ⟨?_, ?_, hc⟩
      · rw [ha, hdrop]
        have hred : ((some t : Option Token) :: argv.drop (fill + 1)).filterMap id
            = t :: (argv.drop (fill + 1)).filterMap id := rfl
        rw [hred]
        simp only [List.length_cons]
        omega
      · rw [hb, hdrop, htake]
        have hred : ((some t : Option Token) :: argv.drop (fill + 1)).filterMap id
            = t :: (argv.drop (fill + 1)).filterMap id := rfl
        rw [hred]
        simp [List.append_assoc]

/-- `deflate_args_list` on a nonempty array: the reported count is one
(for the program name) plus the number of surviving tokens, and the array
up to that count is slot 0 followed by exactly those tokens in order. -/
theorem deflate_args_list_spec (argv : List (Option Token)) (h : argv ≠ []) :
    (deflate_args_list argv).2 = 1 + ((argv.drop 1).filterMap id).length
    ∧ (deflate_args_list argv).1.take ((deflate_args_list argv).2)
        = argv.take 1 ++ ((argv.drop 1).filterMap id).map some
    ∧ (deflate_args_list argv).1.length = argv.length := by
  have hpos : 0 < argv.length := List.length_pos.mpr h
  exact deflate_loop_spec (argv.length - 1) argv 1 (by omega)

/-! ## How the scan evolves argv: slots only become null, never index 0 -/

/-- Relation between argv before and after (part of) the scan: the length
is unchanged, slot 0 (the program name) is untouched, and every slot is
either untouched or nulled. -/
def ArgvEvolve (A B : List (Option Token)) : Prop :=
  B.length = A.length ∧ B.getD 0 none = A.getD 0 none
  ∧ ∀ k, B.getD k none = A.getD k none ∨ B.getD k none = none

theorem argvEvolve_refl (A : List (Option Token)) : ArgvEvolve A A :=
  ⟨rfl, rfl, fun _ => Or.inl rfl⟩

theorem argvEvolve_trans {A B C : List (Option Token)}
    (h1 : ArgvEvolve A B) (h2 : ArgvEvolve B C) : ArgvEvolve A C := by
  obtain ⟨l1, z1, p1⟩ := h1
  obtain ⟨l2, z2, p2⟩ := h2
  refine ⟨l2.trans l1, z2.trans z1, fun k => ?_⟩
  rcases p2 k with h | h
  · rw [h]; exact p1 k
  · exact Or.inr h

theorem argvEvolve_set (A : List (Option Token)) (vi : Nat) (h : 1 ≤ vi) :
    ArgvEvolve A (A.set vi none) := by
  refine ⟨List.length_set A vi none, ?_, fun k => ?_⟩
  · rw [List.getD_eq_getElem?_getD, List.getElem?_set_ne (by omega),
      ← List.getD_eq_getElem?_getD]
  · by_cases hk : vi = k
    · subst hk
      right
      rw [List.getD_eq_getElem?_getD, List.getElem?_set]
      by_cases hlen : vi < A.length <;> simp [hlen]
    · left
      rw [List.getD_eq_getElem?_getD, List.getElem?_set_ne hk,
        ← List.getD_eq_getElem?_getD]

theorem consume_value_argv_evolve (argc : Nat) (s : ParseState) (i : Nat) :
    ArgvEvolve s.argv (consume_value argc s i).1.argv := by
  rcases consume_value_argv argc s i with h | ⟨vi, h1, _, h⟩
  · rw [h]; exact argvEvolve_refl _
  · rw [h]; exact argvEvolve_set _ vi (by omega)

theorem handle_long_match_argv_evolve (argc : Nat) (s : ParseState) (i idx : Nat)
    (o : dooshki_opt) (ia : Option Token) :
    ArgvEvolve s.argv (handle_long_match argc s i idx o ia).argv := by
  unfold handle_long_match
  cases hf : o.has_found <;> cases o.type <;> cases ia <;>
    simp only [hf, Bool.false_eq_true, if_true, if_false] <;>
    (try split) <;>
    first
      | exact argvEvolve_refl _
      | exact consume_value_argv_evolve _ _ _

theorem handle_short_match_argv_evolve (argc : Nat) (s : ParseState) (i idx : Nat)
    (o : dooshki_opt) :
    ArgvEvolve s.argv (handle_short_match argc s i idx o).argv := by
  unfold handle_short_match
  cases hf : o.has_found <;> cases o.type <;>
    simp only [hf, Bool.false_eq_true, if_true, if_false] <;>
    (try split) <;>
    first
      | exact argvEvolve_refl _
      | exact consume_value_argv_evolve _ _ _

theorem process_long_opt_argv_evolve (argc : Nat) (tbl : List dooshki_opt)
    (s : ParseState) (i : Nat) (tok : Token) :
    ArgvEvolve s.argv (process_long_opt argc tbl s i tok).argv := by
  unfold process_long_opt
  by_cases h1 : tok = helpLongTok
  · rw [if_pos h1]; split <;> exact argvEvolve_refl _
  · by_cases h2 : tok = verLongTok
    · rw [if_neg h1, if_pos h2]; split <;> exact argvEvolve_refl _
    · simp only [h1, h2, if_false]
      split
      · exact handle_long_match_argv_evolve _ _ _ _ _ _
      · exact argvEvolve_refl _

theorem short_opts_loop_argv_evolve (argc : Nat) (tbl : List dooshki_opt) (i : Nat)
    (cs : List Char) : ∀ s : ParseState,
    ArgvEvolve s.argv (short_opts_loop argc tbl i s cs).argv := by
  induction cs with
  | nil => intro s; exact argvEvolve_refl _
  | cons c rest ih =>
    intro s
    rw [short_opts_loop]
    refine argvEvolve_trans ?_ (ih _)
    unfold short_opt_step
    by_cases hc : c = 'h'
    · rw [if_pos hc]; split <;> exact argvEvolve_refl _
    · by_cases hV : c = 'V'
      · rw [if_neg hc, if_pos hV]; split <;> exact argvEvolve_refl _
      · simp only [hc, hV, if_false]
        split
        · exact handle_short_match_argv_evolve _ _ _ _ _
        · exact argvEvolve_refl _

theorem parse_scan_argv_evolve (argc : Nat) (tbl : List dooshki_opt) (n : Nat) :
    ∀ (i : Nat) (s : ParseState), 1 ≤ i →
    ArgvEvolve s.argv (parse_scan argc tbl n i s).argv := by
  induction n with
  | zero => intro i s _; exact argvEvolve_refl _
  | succ n ih =>
    intro i s hi
    rw [parse_scan]
    rcases hg : s.argv.getD i none with _ | tok
    · simp only [hg]; exact ih _ _ (by omega)
    · simp only [hg]
      by_cases hd : tok.head? = some '-'
      · rw [if_pos hd]
        by_cases h2 : tok[1]? = some '-'
        · rw [if_pos h2]
          by_cases h3 : tok[2]? = none
          · rw [if_pos h3]
            exact argvEvolve_set _ i hi
          · rw [if_neg h3]
            refine argvEvolve_trans ?_ (ih (i + 1) _ (by omega))
            exact argvEvolve_trans (process_long_opt_argv_evolve _ _ _ _ _)
              (argvEvolve_set _ i hi)
        · rw [if_neg h2]
          refine argvEvolve_trans ?_ (ih (i + 1) _ (by omega))
          exact argvEvolve_trans (short_opts_loop_argv_evolve _ _ _ _ _)
            (argvEvolve_set _ i hi)
      · rw [if_neg hd]; exact ih _ _ (by omega)

/-- Pointwise null-or-same argv entries give a sublist of survivors. -/
theorem filterMap_id_sublist (A : List (Option Token)) : ∀ B : List (Option Token),
    B.length = A.length →
    (∀ k, B.getD k none = A.getD k none ∨ B.getD k none = none) →
    List.Sublist (B.filterMap id) (A.filterMap id) := by
  induction A with
  | nil =>
    intro B hlen _
    have hB : B = [] := List.eq_nil_of_length_eq_zero (by simpa using hlen)
    subst hB
    simp
  | cons a as ih =>
    intro B hlen hpt
    rcases B with _ | ⟨b, bs⟩
    · simp at hlen
    · have hb := hpt 0
      simp only [List.getD_cons_zero] at hb
      have hbs : ∀ k, bs.getD k none = as.getD k none ∨ bs.getD k none = none := by
        intro k
        have := hpt (k + 1)
        simpa [List.getD_cons_succ] using this
      have hlen' : bs.length = as.length := by simpa using hlen
      rcases hb with hb | hb
      · rw [hb]
        cases a with
        | none => exact ih bs hlen' hbs
        | some t => exact List.Sublist.cons₂ t (ih bs hlen' hbs)
      · rw [hb]
        have h1 : List.Sublist (bs.filterMap id) (as.filterMap id) := ih bs hlen' hbs
        have h2 : List.Sublist (as.filterMap id) ((a :: as).filterMap id) := by
          cases a with
          | none => exact List.Sublist.refl _
          | some t => exact List.sublist_cons_self t _
        exact h1.trans h2

/-! ## C2: the compacted sequence -/

/-- C2: after a parse, the compacted sequence (the first `*argc` entries
of the array) is exactly the program-name token (slot 0, never scanned as
an option) followed by every token the scan did not consume (the slots
still non-null after scanning, whose tokens form a subsequence of the
original tokens, hence keep their original relative order), with no gaps;
and the external count `*argc` is exactly the number of retained
entries. -/
theorem C2_compacted_args (ctxt : dooshki_args) (prog : Token)
    (rest : List (Option Token)) (store0 : List OptVal) (found0 : List Bool) :
    final_args (dooshki_args_parse ctxt (some prog :: rest) store0 found0)
      = some prog
        :: ((((scan_state ctxt (some prog :: rest) store0 found0).argv.drop 1).filterMap
              id).map some)
    ∧ (dooshki_args_parse ctxt (some prog :: rest) store0 found0).argc
      = 1 + (((scan_state ctxt (some prog :: rest) store0 found0).argv.drop 1).filterMap
              id).length
    ∧ List.Sublist
        (((scan_state ctxt (some prog :: rest) store0 found0).argv.drop 1).filterMap id)
        (rest.filterMap id) := by
  obtain ⟨hlen, hzero, hpt⟩ :
      ArgvEvolve (some prog :: rest) (scan_state ctxt (some prog :: rest) store0 found0).argv :=
    parse_scan_argv_evolve _ _ _ 1 _ (le_refl 1)
  have hlen' : (scan_state ctxt (some prog :: rest) store0 found0).argv.length
      = rest.length + 1 := by simpa using hlen
  have hne : (scan_state ctxt (some prog :: rest) store0 found0).argv ≠ [] := by
    intro hc
    rw [hc] at hlen'
    simp at hlen'
  obtain ⟨hd2, hd1, _⟩ := deflate_args_list_spec _ hne
  have htake1 : (scan_state ctxt (some prog :: rest) store0 found0).argv.take 1
      = [some prog] := by
    rw [List.take_one]
    have hz : (scan_state ctxt (some prog :: rest) store0 found0).argv.getD 0 none
        = some prog := by
      rw [hzero]; rfl
    rw [List.head?_eq_getElem?, getElem?_of_getD_eq_some _ _ _ hz]
    rfl
  refine ⟨?_, hd2, ?_⟩
  · calc final_args (dooshki_args_parse ctxt (some prog :: rest) store0 found0)
        = (deflate_args_list (scan_state ctxt (some prog :: rest) store0 found0).argv).1.take
            ((deflate_args_list (scan_state ctxt (some prog :: rest) store0 found0).argv).2) := rfl
      _ = (scan_state ctxt (some prog :: rest) store0 found0).argv.take 1
            ++ (((scan_state ctxt (some prog :: rest) store0 found0).argv.drop 1).filterMap
                  id).map some := hd1
      _ = _ := by rw [htake1]; rfl
  · apply filterMap_id_sublist
    · simp [hlen']
    · intro k
      have hk := hpt (k + 1)
      have hshift : ((scan_state ctxt (some prog :: rest) store0 found0).argv.drop 1).getD k none
          = (scan_state ctxt (some prog :: rest) store0 found0).argv.getD (k + 1) none := by
        rw [List.getD_eq_getElem?_getD, List.getElem?_drop, List.getD_eq_getElem?_getD,
          Nat.add_comm 1 k]
      have hcons : ((some prog :: rest : List (Option Token))).getD (k + 1) none
          = rest.getD k none := List.getD_cons_succ
      rw [hcons] at hk
      rw [hshift]
      exact hk

/-- C7: throughout any single parse call the help flag and the version
flag are never both set: a set flag is permanent (monotone through any
remaining portion of the scan, from any intermediate state), and from any
state where the flags are not both set — in particular the all-clear
state a parse call starts from — they remain not both set, because each
trigger is ignored whenever the other flag is already set.  The final
conjunct states it for a whole parse call. -/
theorem C7_help_version_exclusive (argc : Nat) (tbl : List dooshki_opt)
    (n i : Nat) (s : ParseState) (ctxt : dooshki_args)
    (argv0 : List (Option Token)) (store0 : List OptVal) (found0 : List Bool) :
    (s.show_help = true → (parse_scan argc tbl n i s).show_help = true)
  ∧ (s.show_version = true → (parse_scan argc tbl n i s).show_version = true)
  ∧ (s.show_help = false ∨ s.show_version = false →
      (parse_scan argc tbl n i s).show_help = false
    ∨ (parse_scan argc tbl n i s).show_version = false)
  ∧ ((scan_state ctxt argv0 store0 found0).show_help = false
    ∨ (scan_state ctxt argv0 store0 found0).show_version = false) :=
  ⟨parse_scan_show_help_mono argc tbl n i s,
   parse_scan_show_version_mono argc tbl n i s,
   parse_scan_excl argc tbl n i s,
   parse_scan_excl _ _ _ _ _ (Or.inl rfl)⟩

/-- Witness for `C7_help_version_exclusive`: after `prog -h -V` the help
flag is set and the version flag is not. -/
theorem C7_help_version_exclusive_witness :
    ((scan_state emptyCtxt [some progTok, some ['-', 'h'], some ['-', 'V']] [] []).show_help = false
    ∨ (scan_state emptyCtxt [some progTok, some ['-', 'h'], some ['-', 'V']] [] []).show_version = false)
  ∧ (scan_state emptyCtxt [some progTok, some ['-', 'h'], some ['-', 'V']] [] []).show_help = true
  ∧ (scan_state emptyCtxt [some progTok, some ['-', 'h'], some ['-', 'V']] [] []).show_version = false :=
  ⟨(C7_help_version_exclusive 0 [] 0 0
      ⟨[], [], [], false, false, false, []⟩ emptyCtxt
      [some progTok, some ['-', 'h'], some ['-', 'V']] [] []).2.2.2,
   by decide, by decide⟩

/-! ## C10: found-flags are set on match, before value handling -/

/-- C10: whenever a long- or short-form token matches a descriptor with a
non-null `opt_found`, the handler sets the found-flag first — so it is
true in the handler's result for every inline-argument situation and
value-conversion outcome, including the error paths — and found-flags are
never cleared afterwards (monotone through the rest of the scan), so the
flag ends the parse true.  The final conjuncts run `--count=abc` (whose
value conversion fails): the found flag still ends the parse true. -/
theorem C10_found_flag_set_on_match (argc : Nat) (tbl : List dooshki_opt)
    (s : ParseState) (i idx n j k : Nat) (o : dooshki_opt) (ia : Option Token) :
    (o.has_found = true → idx < s.found.length →
      (handle_long_match argc s i idx o ia).found.getD idx false = true)
  ∧ (o.has_found = true → idx < s.found.length →
      (handle_short_match argc s i idx o).found.getD idx false = true)
  ∧ (s.found.getD k false = true →
      (parse_scan argc tbl n j s).found.getD k false = true)
  ∧ (dooshki_args_parse uintCtxt
        [some progTok, some ['-', '-', 'c', 'o', 'u', 'n', 't', '=', 'a', 'b', 'c']]
        [OptVal.vULong 5] [false]).found = [true]
  ∧ (dooshki_args_parse uintCtxt
        [some progTok, some ['-', '-', 'c', 'o', 'u', 'n', 't', '=', 'a', 'b', 'c']]
        [OptVal.vULong 5] [false]).errors_found = true := by
  refine ⟨?_, ?_, parse_scan_found_mono argc tbl n k j s, by decide, by decide⟩
  · intro hf hlt
    rw [handle_long_match_found, if_pos hf]
    exact getD_set_true_self _ _ hlt
  · intro hf hlt
    rw [handle_short_match_found, if_pos hf]
    exact getD_set_true_self _ _ hlt

/-- Witness for `C10_found_flag_set_on_match`: the long handler for the
`--count` descriptor with the failing inline argument `abc` leaves the
found flag true. -/
theorem C10_found_flag_set_on_match_witness :
    (handle_long_match 2
        ⟨[some progTok, none], [OptVal.vULong 5], [false], false, false, false, []⟩
        1 0 countOpt (some ['a', 'b', 'c'])).found.getD 0 false = true :=
  (C10_found_flag_set_on_match 2 [] ⟨[some progTok, none], [OptVal.vULong 5], [false],
      false, false, false, []⟩ 1 0 0 0 0 countOpt (some ['a', 'b', 'c'])).1
    (by decide) (by decide)

/-- C8 counterexample: a lone `-` does NOT remain in the compacted
sequence: it starts with a dash, so the scanner hands it to
`process_short_opts` (which scans zero characters, reporting nothing and
changing nothing) and then nulls its slot; compaction removes it. -/
theorem C8_counterexample :
    some ['-'] ∉ final_args (dooshki_args_parse emptyCtxt
        [some progTok, some ['-']] [] [])
  ∧ final_args (dooshki_args_parse emptyCtxt [some progTok, some ['-']] [] [])
      = [some progTok]
  ∧ (dooshki_args_parse emptyCtxt [some progTok, some ['-']] [] []).errors_found = false :=
  ⟨by decide, by decide, by decide⟩

/-! ## C8: a lone dash -/

/-- C8 (amended): a token consisting of a single dash matches none of the
option forms, registers no error, and changes no destination or flag —
the scan step for it changes the state only by nulling the token's own
slot (the lone dash enters the dash branch, `process_short_opts` scans
zero characters, and the slot is nulled like every dash token), so the
token is consumed and does NOT remain in the compacted sequence.  The
closed conjuncts run `prog -`: no error, outcome Ok, and the lone dash
is gone from the final sequence. -/
theorem C8_lone_dash (argc : Nat) (tbl : List dooshki_opt) (n i : Nat) (s : ParseState)
    (h : s.argv.getD i none = some ['-']) :
    (parse_scan argc tbl (n + 1) i s
      = parse_scan argc tbl n (i + 1) { s with argv := s.argv.set i none })
  ∧ (dooshki_args_parse emptyCtxt [some progTok, some ['-']] [] []).err_log = []
  ∧ (dooshki_args_parse emptyCtxt [some progTok, some ['-']] [] []).ret
      = dooshki_args_ret.PARSE_OK
  ∧ final_args (dooshki_args_parse emptyCtxt [some progTok, some ['-']] [] [])
      = [some progTok] := by
  refine ⟨?_, by decide, by decide, by decide⟩
  rw [parse_scan]
  simp only [h]
  rfl

/-- Witness for `C8_lone_dash` at the scan step of `prog -`. -/
theorem C8_lone_dash_witness :
    parse_scan 2 [] 1 1 ⟨[some progTok, some ['-']], [], [], false, false, false, []⟩
      = parse_scan 2 [] 0 2
          ⟨[some progTok, none], [], [], false, false, false, []⟩ :=
  (C8_lone_dash 2 [] 0 1 ⟨[some progTok, some ['-']], [], [], false, false, false, []⟩
    (by decide)).1

/-! ## C6: value-bearing short options in a cluster -/

set_option maxHeartbeats 1600000

/-- C6: for two short options `-f` and `-d` that each require a value
(any of the value-bearing kinds, with any callbacks, destinations and
found-flags), parsing `-fd A B` produces the same destinations,
found-flags, compacted sequence, error flag and outcome as parsing
`-f A -d B`: each value-bearing character in a cluster consumes the next
still-unconsumed token in turn.  (The characters must be actual distinct
option letters — not `h`/`V`/`-` — and the values not the literal `--`,
which the value search refuses to consume.) -/
theorem C6_cluster_equals_split (f d : Char) (tf td : OptType)
    (cbf cbd : Option Token → OptVal → OptVal × Bool) (bf bd : Bool)
    (prog A B : Token) (v0 v1 : OptVal) (b0 b1 : Bool)
    (hfh : f ≠ 'h') (hfV : f ≠ 'V') (hdh : d ≠ 'h') (hdV : d ≠ 'V')
    (hfdash : f ≠ '-') (hddash : d ≠ '-') (hfd : f ≠ d)
    (hA : A ≠ ['-', '-']) (hB : B ≠ ['-', '-'])
    (htf1 : tf ≠ OptType.BOOL) (htf2 : tf ≠ OptType.NEGBOOL) (htf3 : tf ≠ OptType.CB_NOARG)
    (htd1 : td ≠ OptType.BOOL) (htd2 : td ≠ OptType.NEGBOOL) (htd3 : td ≠ OptType.CB_NOARG) :
    (dooshki_args_parse ⟨[⟨some [f], none, tf, bf, cbf⟩, ⟨some [d], none, td, bd, cbd⟩]⟩
        [some prog, some ['-', f, d], some A, some B] [v0, v1] [b0, b1]).store
      = (dooshki_args_parse ⟨[⟨some [f], none, tf, bf, cbf⟩, ⟨some [d], none, td, bd, cbd⟩]⟩
        [some prog, some ['-', f], some A, some ['-', d], some B] [v0, v1] [b0, b1]).store
  ∧ (dooshki_args_parse ⟨[⟨some [f], none, tf, bf, cbf⟩, ⟨some [d], none, td, bd, cbd⟩]⟩
        [some prog, some ['-', f, d], some A, some B] [v0, v1] [b0, b1]).found
      = (dooshki_args_parse ⟨[⟨some [f], none, tf, bf, cbf⟩, ⟨some [d], none, td, bd, cbd⟩]⟩
        [some prog, some ['-', f], some A, some ['-', d], some B] [v0, v1] [b0, b1]).found
  ∧ final_args (dooshki_args_parse ⟨[⟨some [f], none, tf, bf, cbf⟩, ⟨some [d], none, td, bd, cbd⟩]⟩
        [some prog, some ['-', f, d], some A, some B] [v0, v1] [b0, b1])
      = final_args (dooshki_args_parse ⟨[⟨some [f], none, tf, bf, cbf⟩, ⟨some [d], none, td, bd, cbd⟩]⟩
        [some prog, some ['-', f], some A, some ['-', d], some B] [v0, v1] [b0, b1])
  ∧ (dooshki_args_parse ⟨[⟨some [f], none, tf, bf, cbf⟩, ⟨some [d], none, td, bd, cbd⟩]⟩
        [some prog, some ['-', f, d], some A, some B] [v0, v1] [b0, b1]).errors_found
      = (dooshki_args_parse ⟨[⟨some [f], none, tf, bf, cbf⟩, ⟨some [d], none, td, bd, cbd⟩]⟩
        [some prog, some ['-', f], some A, some ['-', d], some B] [v0, v1] [b0, b1]).errors_found
  ∧ (dooshki_args_parse ⟨[⟨some [f], none, tf, bf, cbf⟩, ⟨some [d], none, td, bd, cbd⟩]⟩
        [some prog, some ['-', f, d], some A, some B] [v0, v1] [b0, b1]).ret
      = (dooshki_args_parse ⟨[⟨some [f], none, tf, bf, cbf⟩, ⟨some [d], none, td, bd, cbd⟩]⟩
        [some prog, some ['-', f], some A, some ['-', d], some B] [v0, v1] [b0, b1]).ret := by
  cases tf
  case BOOL => exact absurd rfl htf1
  case NEGBOOL => exact absurd rfl htf2
  case CB_NOARG => exact absurd rfl htf3
  all_goals cases td
  all_goals first
    | exact absurd rfl htd1
    | exact absurd rfl htd2
    | exact absurd rfl htd3
    | simp [dooshki_args_parse, scan_state, parse_scan, process_short_opts,
        short_opts_loop, short_opt_step, short_opt_search, handle_short_match, consume_value,
        find_value_token, apply_opt_arg, dashDash,
        deflate_args_list, deflate_loop, find_pull, final_args,
        apply_ite ParseState.argv, apply_ite ParseState.store, apply_ite ParseState.found,
        apply_ite ParseState.show_help, apply_ite ParseState.show_version,
        apply_ite ParseState.errors_found, apply_ite ParseState.err_log, ite_self,
        hfh, hfV, hdh, hdV, hfdash, hddash, hfd, hA, hB,
        fun h : d = f => hfd h.symm]

set_option maxHeartbeats 200000

/-! ## C1: everything after the end-of-options marker is inert

The strategy: with the `--` marker in slot `p`, running the scan on the
full array is equivalent to running it on the array truncated to `p + 1`
entries — the scanner never looks past the marker (the value search stops
at it), so the truncated run computes the same store, flags and errors,
and the full run leaves every slot after the marker untouched. -/

theorem getD_take_lt (X : List (Option Token)) (m k : Nat) (h : k < m) :
    (X.take m).getD k none = X.getD k none := by
  rw [List.getD_eq_getElem?_getD, List.getElem?_take, if_pos h, ← List.getD_eq_getElem?_getD]

theorem take_set_commute (X : List (Option Token)) (v m : Nat) (a : Option Token)
    (h : v < m) : (X.set v a).take m = (X.take m).set v a := by
  apply List.ext_getElem?
  intro k
  rw [List.getElem?_take, List.getElem?_set, List.getElem?_set]
  by_cases hvk : v = k
  · subst hvk
    rw [if_pos rfl, if_pos rfl, if_pos h]
    by_cases hl : v < X.length
    · rw [if_pos hl, if_pos (by simp [List.length_take]; omega)]
    · rw [if_neg hl, if_neg (by simp [List.length_take]; omega)]
  · rw [if_neg hvk, if_neg hvk, List.getElem?_take]

theorem drop_set_low (X : List (Option Token)) (v m : Nat) (a : Option Token)
    (h : v < m) : (X.set v a).drop m = X.drop m := by
  apply List.ext_getElem?
  intro k
  rw [List.getElem?_drop, List.getElem?_drop, List.getElem?_set_ne (by omega)]

/-- The value search never looks past the `--` marker: two argv arrays
that agree up to the marker's slot give the same search result (for any
sufficient fuel), and a successful search stays strictly below the
marker. -/
theorem find_value_token_stopper_sim (A B : List (Option Token)) (p : Nat)
    (hdd : A.getD p none = some dashDash)
    (hag : ∀ k, k ≤ p → A.getD k none = B.getD k none) :
    ∀ (m j n1 n2 : Nat), j + m = p → p + 1 - j ≤ n1 → p + 1 - j ≤ n2 →
    find_value_token A n1 j = find_value_token B n2 j
    ∧ (∀ v, find_value_token A n1 j = some v → j ≤ v ∧ v < p ∧ A.getD v none ≠ none) := by
  intro m
  induction m with
  | zero =>
    intro j n1 n2 hj hn1 hn2
    have hjp : j = p := by omega
    subst hjp
    obtain ⟨n1', rfl⟩ : ∃ n1', n1 = n1' + 1 := ⟨n1 - 1, by omega⟩
    obtain ⟨n2', rfl⟩ : ∃ n2', n2 = n2' + 1 := ⟨n2 - 1, by omega⟩
    have hB : B.getD j none = some dashDash := by rw [← hag j (le_refl j)]; exact hdd
    rw [find_value_token, find_value_token]
    simp only [hdd, hB, if_pos rfl]
    exact ⟨by trivial, fun v hv => absurd hv (by simp)⟩
  | succ m ih =>
    intro j n1 n2 hj hn1 hn2
    obtain ⟨n1', rfl⟩ : ∃ n1', n1 = n1' + 1 := ⟨n1 - 1, by omega⟩
    obtain ⟨n2', rfl⟩ : ∃ n2', n2 = n2' + 1 := ⟨n2 - 1, by omega⟩
    rw [find_value_token, find_value_token]
    have hAB : A.getD j none = B.getD j none := hag j (by omega)
    rcases hg : A.getD j none with _ | t'
    · have hgB : B.getD j none = none := by rw [← hAB]; exact hg
      simp only [hg, hgB]
      obtain ⟨h1, h2⟩ := ih (j + 1) n1' n2' (by omega) (by omega) (by omega)
      exact ⟨h1, fun v hv => by
        obtain ⟨ha, hb, hc⟩ := h2 v hv
        exact ⟨by omega, hb, hc⟩⟩
    · have hgB : B.getD j none = some t' := by rw [← hAB]; exact hg
      simp only [hg, hgB]
      refine ⟨by trivial, ?_⟩
      intro v hv
      by_cases hdd' : t' = dashDash
      · rw [if_pos hdd'] at hv
        exact absurd hv (by simp)
      · rw [if_neg hdd'] at hv
        injection hv with hv'
        subst hv'
        exact ⟨le_refl _, by omega, by rw [hg]; simp⟩

/-- `consume_value` commutes with truncating argv just after the marker,
and touches no slot at or past the marker. -/
theorem consume_value_take_commute (argc_s argc_t p i : Nat) (s : ParseState)
    (hdd : s.argv.getD p none = some dashDash) (hip : i < p)
    (hcs : p < argc_s) (hct : p < argc_t) :
    consume_value argc_t { s with argv := s.argv.take (p + 1) } i
      = ({ (consume_value argc_s s i).1 with
            argv := (consume_value argc_s s i).1.argv.take (p + 1) },
         (consume_value argc_s s i).2)
    ∧ ∀ k, p ≤ k →
        (consume_value argc_s s i).1.argv.getD k none = s.argv.getD k none := by
  have hag : ∀ k, k ≤ p → s.argv.getD k none = (s.argv.take (p + 1)).getD k none :=
    fun k hk => (getD_take_lt _ _ _ (by omega)).symm
  obtain ⟨heq, hres⟩ := find_value_token_stopper_sim s.argv (s.argv.take (p + 1)) p hdd hag
    (p - (i + 1)) (i + 1) (argc_s - (i + 1)) (argc_t - (i + 1))
    (by omega) (by omega) (by omega)
  unfold consume_value
  rcases hf : find_value_token s.argv (argc_s - (i + 1)) (i + 1) with _ | v
  · rw [hf] at heq
    simp only [hf, ← heq]
    refine ⟨?_, ?_⟩ <;> (intros; trivial)
  · obtain ⟨hv1, hv2, hv3⟩ := hres v hf
    rw [hf] at heq
    simp only [hf, ← heq]
    constructor
    · have hargv : (s.argv.take (p + 1)).set v none = (s.argv.set v none).take (p + 1) :=
        (take_set_commute _ _ _ _ (by omega)).symm
      have hval : (s.argv.take (p + 1)).getD v none = s.argv.getD v none :=
        getD_take_lt _ _ _ (by omega)
      simp only [hargv, hval]
    · intro k hk
      rw [List.getD_eq_getElem?_getD, List.getElem?_set_ne (by omega),
        ← List.getD_eq_getElem?_getD]

theorem apply_opt_arg_take_commute (p : Nat) (s : ParseState) (idx : Nat)
    (o : dooshki_opt) (b : Bool) (a : Token) :
    apply_opt_arg { s with argv := s.argv.take (p + 1) } idx o b a
      = { apply_opt_arg s idx o b a with
          argv := (apply_opt_arg s idx o b a).argv.take (p + 1) } := rfl

theorem handle_long_match_take_commute (argc_s argc_t p : Nat) (s : ParseState)
    (i idx : Nat) (o : dooshki_opt) (ia : Option Token)
    (hdd : s.argv.getD p none = some dashDash) (hip : i < p)
    (hcs : p < argc_s) (hct : p < argc_t) :
    handle_long_match argc_t { s with argv := s.argv.take (p + 1) } i idx o ia
      = { handle_long_match argc_s s i idx o ia with
          argv := (handle_long_match argc_s s i idx o ia).argv.take (p + 1) }
    ∧ ∀ k, p ≤ k → (handle_long_match argc_s s i idx o ia).argv.getD k none
        = s.argv.getD k none := by
  cases hf : o.has_found
  case false =>
    obtain ⟨hcv, hh⟩ := consume_value_take_commute argc_s argc_t p i s hdd hip hcs hct
    unfold handle_long_match
    simp only [hf, Bool.false_eq_true, if_false]
    cases o.type <;> cases ia <;>
      first
        | exact ⟨rfl, fun k hk => rfl⟩
        | (refine ⟨?_, ?_⟩
           · rw [hcv]
             rcases hcv2 : (consume_value argc_s s i).2 with _ | a <;>
               simp only [hcv2] <;> rfl
           · intro k hk
             rcases hcv2 : (consume_value argc_s s i).2 with _ | a <;>
               simp only [hcv2, apply_opt_arg_argv] <;> exact hh k hk)
  case true =>
    obtain ⟨hcv, hh⟩ := consume_value_take_commute argc_s argc_t p i
      { s with found := s.found.set idx true } hdd hip hcs hct
    unfold handle_long_match
    simp only [hf, if_true]
    cases o.type <;> cases ia <;>
      first
        | exact ⟨rfl, fun k hk => rfl⟩
        | (refine ⟨?_, ?_⟩
           · rw [hcv]
             rcases hcv2 : (consume_value argc_s { s with found := s.found.set idx true } i).2
                 with _ | a <;>
               simp only [hcv2] <;> rfl
           · intro k hk
             rcases hcv2 : (consume_value argc_s { s with found := s.found.set idx true } i).2
                 with _ | a <;>
               simp only [hcv2, apply_opt_arg_argv] <;> exact hh k hk)

theorem handle_short_match_take_commute (argc_s argc_t p : Nat) (s : ParseState)
    (i idx : Nat) (o : dooshki_opt)
    (hdd : s.argv.getD p none = some dashDash) (hip : i < p)
    (hcs : p < argc_s) (hct : p < argc_t) :
    handle_short_match argc_t { s with argv := s.argv.take (p + 1) } i idx o
      = { handle_short_match argc_s s i idx o with
          argv := (handle_short_match argc_s s i idx o).argv.take (p + 1) }
    ∧ ∀ k, p ≤ k → (handle_short_match argc_s s i idx o).argv.getD k none
        = s.argv.getD k none := by
  cases hf : o.has_found
  case false =>
    obtain ⟨hcv, hh⟩ := consume_value_take_commute argc_s argc_t p i s hdd hip hcs hct
    unfold handle_short_match
    simp only [hf, Bool.false_eq_true, if_false]
    cases o.type <;>
      first
        | exact ⟨rfl, fun k hk => rfl⟩
        | (refine ⟨?_, ?_⟩
           · rw [hcv]
             rcases hcv2 : (consume_value argc_s s i).2 with _ | a <;>
               simp only [hcv2] <;> rfl
           · intro k hk
             rcases hcv2 : (consume_value argc_s s i).2 with _ | a <;>
               simp only [hcv2, apply_opt_arg_argv] <;> exact hh k hk)
  case true =>
    obtain ⟨hcv, hh⟩ := consume_value_take_commute argc_s argc_t p i
      { s with found := s.found.set idx true } hdd hip hcs hct
    unfold handle_short_match
    simp only [hf, if_true]
    cases o.type <;>
      first
        | exact ⟨rfl, fun k hk => rfl⟩
        | (refine ⟨?_, ?_⟩
           · rw [hcv]
             rcases hcv2 : (consume_value argc_s { s with found := s.found.set idx true } i).2
                 with _ | a <;>
               simp only [hcv2] <;> rfl
           · intro k hk
             rcases hcv2 : (consume_value argc_s { s with found := s.found.set idx true } i).2
                 with _ | a <;>
               simp only [hcv2, apply_opt_arg_argv] <;> exact hh k hk)

theorem process_long_opt_take_commute (argc_s argc_t p : Nat) (tbl : List dooshki_opt)
    (s : ParseState) (i : Nat) (tok : Token)
    (hdd : s.argv.getD p none = some dashDash) (hip : i < p)
    (hcs : p < argc_s) (hct : p < argc_t) :
    process_long_opt argc_t tbl { s with argv := s.argv.take (p + 1) } i tok
      = { process_long_opt argc_s tbl s i tok with
          argv := (process_long_opt argc_s tbl s i tok).argv.take (p + 1) }
    ∧ ∀ k, p ≤ k → (process_long_opt argc_s tbl s i tok).argv.getD k none
        = s.argv.getD k none := by
  unfold process_long_opt
  by_cases h1 : tok = helpLongTok
  · refine ⟨?_, ?_⟩
    · by_cases hv : s.show_version <;> simp +decide [h1, hv]
    · intro k hk
      by_cases hv : s.show_version <;> simp +decide [h1, hv]
  · by_cases h2 : tok = verLongTok
    · refine ⟨?_, ?_⟩
      · by_cases hh : s.show_help <;> simp +decide [h1, h2, hh]
      · intro k hk
        by_cases hh : s.show_help <;> simp +decide [h1, h2, hh]
    · simp only [h1, h2, if_false]
      rcases hm : long_opt_search tbl (tok.drop 2)
          ((tok.drop 2).takeWhile not_eq_sign).length 0 with _ | ⟨idx, o⟩
      · simp only [hm]
        refine ⟨?_, ?_⟩ <;> (intros; trivial)
      · simp only [hm]
        exact handle_long_match_take_commute argc_s argc_t p s i idx o _ hdd hip hcs hct

theorem short_opt_step_take_commute (argc_s argc_t p : Nat) (tbl : List dooshki_opt)
    (s : ParseState) (i : Nat) (c : Char)
    (hdd : s.argv.getD p none = some dashDash) (hip : i < p)
    (hcs : p < argc_s) (hct : p < argc_t) :
    short_opt_step argc_t tbl i { s with argv := s.argv.take (p + 1) } c
      = { short_opt_step argc_s tbl i s c with
          argv := (short_opt_step argc_s tbl i s c).argv.take (p + 1) }
    ∧ ∀ k, p ≤ k → (short_opt_step argc_s tbl i s c).argv.getD k none
        = s.argv.getD k none := by
  unfold short_opt_step
  by_cases hc : c = 'h'
  · refine ⟨?_, ?_⟩
    · by_cases hv : s.show_version <;> simp +decide [hc, hv]
    · intro k hk
      by_cases hv : s.show_version <;> simp +decide [hc, hv]
  · by_cases hV : c = 'V'
    · refine ⟨?_, ?_⟩
      · by_cases hh : s.show_help <;> simp +decide [hc, hV, hh]
      · intro k hk
        by_cases hh : s.show_help <;> simp +decide [hc, hV, hh]
    · simp only [hc, hV, if_false]
      rcases hm : short_opt_search tbl c 0 with _ | ⟨idx, o⟩
      · simp only [hm]
        refine ⟨?_, ?_⟩ <;> (intros; trivial)
      · simp only [hm]
        exact handle_short_match_take_commute argc_s argc_t p s i idx o hdd hip hcs hct

theorem short_opts_loop_take_commute (argc_s argc_t p : Nat) (tbl : List dooshki_opt)
    (i : Nat) (cs : List Char) : ∀ s : ParseState,
    s.argv.getD p none = some dashDash → i < p → p < argc_s → p < argc_t →
    short_opts_loop argc_t tbl i { s with argv := s.argv.take (p + 1) } cs
      = { short_opts_loop argc_s tbl i s cs with
          argv := (short_opts_loop argc_s tbl i s cs).argv.take (p + 1) }
    ∧ ∀ k, p ≤ k → (short_opts_loop argc_s tbl i s cs).argv.getD k none
        = s.argv.getD k none := by
  induction cs with
  | nil => intro s _ _ _ _; exact ⟨rfl, fun k hk => rfl⟩
  | cons c rest ih =>
    intro s hdd hip hcs hct
    rw [short_opts_loop, short_opts_loop]
    obtain ⟨hstep, hstephigh⟩ :=
      short_opt_step_take_commute argc_s argc_t p tbl s i c hdd hip hcs hct
    rw [hstep]
    have hdd' : (short_opt_step argc_s tbl i s c).argv.getD p none = some dashDash := by
      rw [hstephigh p (le_refl p)]; exact hdd
    obtain ⟨h1, h2⟩ := ih (short_opt_step argc_s tbl i s c) hdd' hip hcs hct
    exact ⟨h1, fun k hk => (h2 k hk).trans (hstephigh k hk)⟩

theorem process_short_opts_take_commute (argc_s argc_t p : Nat) (tbl : List dooshki_opt)
    (s : ParseState) (i : Nat) (tok : Token)
    (hdd : s.argv.getD p none = some dashDash) (hip : i < p)
    (hcs : p < argc_s) (hct : p < argc_t) :
    process_short_opts argc_t tbl { s with argv := s.argv.take (p + 1) } i tok
      = { process_short_opts argc_s tbl s i tok with
          argv := (process_short_opts argc_s tbl s i tok).argv.take (p + 1) }
    ∧ ∀ k, p ≤ k → (process_short_opts argc_s tbl s i tok).argv.getD k none
        = s.argv.getD k none :=
  short_opts_loop_take_commute argc_s argc_t p tbl i (tok.drop 1) s hdd hip hcs hct

/-- The scanning loop itself commutes with truncation just after the
marker: from any index at or before the marker's slot, with any
sufficient fuel on either side, scanning the truncated array computes the
truncation of scanning the full array — and the full scan never writes at
any slot past the marker. -/
theorem parse_scan_take_commute (argc_s argc_t p : Nat) (tbl : List dooshki_opt) :
    ∀ (m i : Nat) (s : ParseState) (n_s n_t : Nat), i + m = p →
    s.argv.getD p none = some dashDash →
    p + 1 - i ≤ n_s → p + 1 - i ≤ n_t → p < argc_s → p < argc_t → 1 ≤ i →
    parse_scan argc_t tbl n_t i { s with argv := s.argv.take (p + 1) }
      = { parse_scan argc_s tbl n_s i s with
          argv := (parse_scan argc_s tbl n_s i s).argv.take (p + 1) }
    ∧ ∀ k, p < k → (parse_scan argc_s tbl n_s i s).argv.getD k none
        = s.argv.getD k none := by
  intro m
  induction m with
  | zero =>
    intro i s n_s n_t hm hdd hns hnt hcs hct hi
    have hip : i = p := by omega
    subst hip
    obtain ⟨n_s', rfl⟩ : ∃ x, n_s = x + 1 := ⟨n_s - 1, by omega⟩
    obtain ⟨n_t', rfl⟩ : ∃ x, n_t = x + 1 := ⟨n_t - 1, by omega⟩
    rw [parse_scan, parse_scan]
    have hgt : ({ s with argv := s.argv.take (i + 1) } : ParseState).argv.getD i none
        = some dashDash := by
      show (s.argv.take (i + 1)).getD i none = some dashDash
      rw [getD_take_lt _ _ _ (by omega)]
      exact hdd
    simp only [hdd, hgt]
    rw [if_pos (by rfl), if_pos (by rfl), if_pos (by rfl), if_pos (by rfl),
      if_pos (by rfl), if_pos (by rfl)]
    refine ⟨?_, ?_⟩
    · show ({ s with argv := (s.argv.take (i + 1)).set i none } : ParseState)
        = { s with argv := (s.argv.set i none).take (i + 1) }
      rw [take_set_commute _ _ _ _ (by omega)]
    · intro k hk
      show (s.argv.set i none).getD k none = s.argv.getD k none
      rw [List.getD_eq_getElem?_getD, List.getElem?_set_ne (by omega),
        ← List.getD_eq_getElem?_getD]
  | succ m ih =>
    intro i s n_s n_t hm hdd hns hnt hcs hct hi
    obtain ⟨n_s', rfl⟩ : ∃ x, n_s = x + 1 := ⟨n_s - 1, by omega⟩
    obtain ⟨n_t', rfl⟩ : ∃ x, n_t = x + 1 := ⟨n_t - 1, by omega⟩
    rw [parse_scan, parse_scan]
    have htget : ({ s with argv := s.argv.take (p + 1) } : ParseState).argv.getD i none
        = s.argv.getD i none := by
      show (s.argv.take (p + 1)).getD i none = s.argv.getD i none
      exact getD_take_lt _ _ _ (by omega)
    rcases hg : s.argv.getD i none with _ | tok
    · rw [htget]
      simp only [hg]
      exact ih (i + 1) s n_s' n_t' (by omega) hdd (by omega) (by omega) hcs hct (by omega)
    · rw [htget]
      simp only [hg]
      by_cases hda : tok.head? = some '-'
      · rw [if_pos hda, if_pos hda]
        by_cases h2 : tok[1]? = some '-'
        · rw [if_pos h2, if_pos h2]
          by_cases h3 : tok[2]? = none
          · rw [if_pos h3, if_pos h3]
            refine ⟨?_, ?_⟩
            · show ({ s with argv := (s.argv.take (p + 1)).set i none } : ParseState)
                = { s with argv := (s.argv.set i none).take (p + 1) }
              rw [take_set_commute _ _ _ _ (by omega)]
            · intro k hk
              show (s.argv.set i none).getD k none = s.argv.getD k none
              rw [List.getD_eq_getElem?_getD, List.getElem?_set_ne (by omega),
                ← List.getD_eq_getElem?_getD]
          · rw [if_neg h3, if_neg h3]
            obtain ⟨hpl, hplhigh⟩ := process_long_opt_take_commute argc_s argc_t p tbl s i tok
              hdd (by omega) hcs hct
            rw [hpl]
            have hdd1 : ((process_long_opt argc_s tbl s i tok).argv.set i none).getD p none
                = some dashDash := by
              rw [List.getD_eq_getElem?_getD, List.getElem?_set_ne (by omega),
                ← List.getD_eq_getElem?_getD, hplhigh p (le_refl p)]
              exact hdd
            obtain ⟨hrec, hrechigh⟩ := ih (i + 1)
              { process_long_opt argc_s tbl s i tok with
                argv := (process_long_opt argc_s tbl s i tok).argv.set i none }
              n_s' n_t' (by omega) hdd1 (by omega) (by omega) hcs hct (by omega)
            refine ⟨?_, ?_⟩
            · show parse_scan argc_t tbl n_t' (i + 1)
                  ⟨((process_long_opt argc_s tbl s i tok).argv.take (p + 1)).set i none,
                    (process_long_opt argc_s tbl s i tok).store,
                    (process_long_opt argc_s tbl s i tok).found,
                    (process_long_opt argc_s tbl s i tok).show_help,
                    (process_long_opt argc_s tbl s i tok).show_version,
                    (process_long_opt argc_s tbl s i tok).errors_found,
                    (process_long_opt argc_s tbl s i tok).err_log⟩ = _
              rw [← take_set_commute _ i (p + 1) none (by omega)]
              exact hrec
            · intro k hk
              have htail : ((process_long_opt argc_s tbl s i tok).argv.set i none).getD k none
                  = s.argv.getD k none := by
                rw [List.getD_eq_getElem?_getD, List.getElem?_set_ne (by omega),
                  ← List.getD_eq_getElem?_getD, hplhigh k (by omega)]
              exact (hrechigh k hk).trans htail
        · rw [if_neg h2, if_neg h2]
          obtain ⟨hpl, hplhigh⟩ := short_opts_loop_take_commute argc_s argc_t p tbl i
            (tok.drop 1) s hdd (by omega) hcs hct
          rw [show process_short_opts argc_t tbl
                { s with argv := s.argv.take (p + 1) } i tok
              = short_opts_loop argc_t tbl i { s with argv := s.argv.take (p + 1) }
                  (tok.drop 1) from rfl, hpl]
          have hdd1 : ((short_opts_loop argc_s tbl i s (tok.drop 1)).argv.set i none).getD p none
              = some dashDash := by
            rw [List.getD_eq_getElem?_getD, List.getElem?_set_ne (by omega),
              ← List.getD_eq_getElem?_getD, hplhigh p (le_refl p)]
            exact hdd
          obtain ⟨hrec, hrechigh⟩ := ih (i + 1)
            { short_opts_loop argc_s tbl i s (tok.drop 1) with
              argv := (short_opts_loop argc_s tbl i s (tok.drop 1)).argv.set i none }
            n_s' n_t' (by omega) hdd1 (by omega) (by omega) hcs hct (by omega)
          refine ⟨?_, ?_⟩
          · show parse_scan argc_t tbl n_t' (i + 1)
                ⟨((short_opts_loop argc_s tbl i s (tok.drop 1)).argv.take (p + 1)).set i none,
                  (short_opts_loop argc_s tbl i s (tok.drop 1)).store,
                  (short_opts_loop argc_s tbl i s (tok.drop 1)).found,
                  (short_opts_loop argc_s tbl i s (tok.drop 1)).show_help,
                  (short_opts_loop argc_s tbl i s (tok.drop 1)).show_version,
                  (short_opts_loop argc_s tbl i s (tok.drop 1)).errors_found,
                  (short_opts_loop argc_s tbl i s (tok.drop 1)).err_log⟩ = _
            rw [← take_set_commute _ i (p + 1) none (by omega)]
            exact hrec
          · intro k hk
            have htail : ((short_opts_loop argc_s tbl i s (tok.drop 1)).argv.set i none).getD k none
                = s.argv.getD k none := by
              rw [List.getD_eq_getElem?_getD, List.getElem?_set_ne (by omega),
                ← List.getD_eq_getElem?_getD, hplhigh k (by omega)]
            exact (hrechigh k hk).trans htail
      · rw [if_neg hda, if_neg hda]
        exact ih (i + 1) s n_s' n_t' (by omega) hdd (by omega) (by omega) hcs hct (by omega)

/-! ## C1: the end-of-options marker, amended -/

theorem getD_set_none_self (L : List (Option Token)) (j : Nat) :
    (L.set j none).getD j none = none := by
  by_cases h : j < L.length
  · rw [List.getD_eq_getElem?_getD, List.getElem?_set_self h]
    rfl
  · rw [List.getD_eq_getElem?_getD, List.getElem?_eq_none (by simp; omega)]
    rfl

theorem filterMap_id_map_some : ∀ L : List (Option Token), (∀ x ∈ L, x ≠ none) →
    (L.filterMap id).map some = L := by
  intro L
  induction L with
  | nil => intro _; rfl
  | cons a t ih =>
    intro h
    rcases a with _ | x
    · exact absurd rfl (h none (by simp))
    · have hred : ((some x :: t).filterMap id) = x :: t.filterMap id := rfl
      rw [hred, List.map_cons, ih (fun y hy => h y (by simp [hy]))]

/-- If the marker's slot still holds `--` and no slot from the current
index up to it holds `--`, the scan reaches the marker and nulls its
slot (the `(*argv)[arg_iter] = NULL;` at line 713 runs in the stopper
branch as well). -/
theorem parse_scan_marker_nulled (argc p : Nat) (tbl : List dooshki_opt) :
    ∀ (m i : Nat) (s : ParseState) (n : Nat), i + m = p →
    s.argv.getD p none = some dashDash →
    (∀ q, i ≤ q → q < p → s.argv.getD q none ≠ some dashDash) →
    p + 1 - i ≤ n → p < argc → 1 ≤ i →
    (parse_scan argc tbl n i s).argv.getD p none = none := by
  intro m
  induction m with
  | zero =>
    intro i s n hm hdd hstop hn hc hi
    have hip : i = p := by omega
    subst hip
    obtain ⟨n', rfl⟩ : ∃ x, n = x + 1 := ⟨n - 1, by omega⟩
    rw [parse_scan]
    simp only [hdd]
    rw [if_pos (by rfl), if_pos (by rfl), if_pos (by rfl)]
    show (s.argv.set i none).getD i none = none
    exact getD_set_none_self _ _
  | succ m ih =>
    intro i s n hm hdd hstop hn hc hi
    obtain ⟨n', rfl⟩ : ∃ x, n = x + 1 := ⟨n - 1, by omega⟩
    rw [parse_scan]
    rcases hg : s.argv.getD i none with _ | tok
    · simp only [hg]
      exact ih (i + 1) s n' (by omega) hdd
        (fun q h1 h2 => hstop q (by omega) h2) (by omega) hc (by omega)
    · simp only [hg]
      by_cases hda : tok.head? = some '-'
      · rw [if_pos hda]
        by_cases h2 : tok[1]? = some '-'
        · rw [if_pos h2]
          by_cases h3 : tok[2]? = none
          · exfalso
            have htok : tok = dashDash := by
              rcases tok with _ | ⟨c0, rest⟩
              · simp at hda
              rcases rest with _ | ⟨c1, rest2⟩
              · simp at h2
              rcases rest2 with _ | ⟨c2, rest3⟩
              · have hc0 : c0 = '-' := by simpa using hda
                have hc1 : c1 = '-' := by simpa using h2
                rw [hc0, hc1]; rfl
              · simp at h3
            exact hstop i (le_refl i) (by omega) (by rw [hg, htok])
          · rw [if_neg h3]
            obtain ⟨_, hhigh⟩ := process_long_opt_take_commute argc argc p tbl s i tok hdd
              (by omega) hc hc
            have hdd1 : ((process_long_opt argc tbl s i tok).argv.set i none).getD p none
                = some dashDash := by
              rw [List.getD_eq_getElem?_getD, List.getElem?_set_ne (by omega),
                ← List.getD_eq_getElem?_getD, hhigh p (le_refl p)]
              exact hdd
            have hev : ArgvEvolve s.argv
                ((process_long_opt argc tbl s i tok).argv.set i none) :=
              argvEvolve_trans (process_long_opt_argv_evolve argc tbl s i tok)
                (argvEvolve_set _ i hi)
            refine ih (i + 1) _ n' (by omega) hdd1 ?_ (by omega) hc (by omega)
            intro q h1 h2 hqe
            have hqe' : ((process_long_opt argc tbl s i tok).argv.set i none).getD q none
                = some dashDash := hqe
            rcases hev.2.2 q with hsame | hnone
            · rw [hsame] at hqe'
              exact hstop q (by omega) h2 hqe'
            · rw [hnone] at hqe'
              exact absurd hqe' (by simp)
        · rw [if_neg h2]
          obtain ⟨_, hhigh⟩ := process_short_opts_take_commute argc argc p tbl s i tok hdd
            (by omega) hc hc
          have hdd1 : ((process_short_opts argc tbl s i tok).argv.set i none).getD p none
              = some dashDash := by
            rw [List.getD_eq_getElem?_getD, List.getElem?_set_ne (by omega),
              ← List.getD_eq_getElem?_getD, hhigh p (le_refl p)]
            exact hdd
          have hev : ArgvEvolve s.argv
              ((process_short_opts argc tbl s i tok).argv.set i none) :=
            argvEvolve_trans (short_opts_loop_argv_evolve argc tbl i (tok.drop 1) s)
              (argvEvolve_set _ i hi)
          refine ih (i + 1) _ n' (by omega) hdd1 ?_ (by omega) hc (by omega)
          intro q h1 h2 hqe
          have hqe' : ((process_short_opts argc tbl s i tok).argv.set i none).getD q none
              = some dashDash := hqe
          rcases hev.2.2 q with hsame | hnone
          · rw [hsame] at hqe'
            exact hstop q (by omega) h2 hqe'
          · rw [hnone] at hqe'
            exact absurd hqe' (by simp)
      · rw [if_neg hda]
        exact ih (i + 1) s n' (by omega) hdd
          (fun q h1 h2 => hstop q (by omega) h2) (by omega) hc (by omega)

/-- C1 (amended): with a standalone `--` at slot `p` (none earlier, and no
null slots after it), scanning stops at the marker: the parse of the full
argument array has exactly the same destination stores, found-flags, flags,
error log and return value as the parse of the array truncated just after
the marker, and its final compacted sequence is that of the truncated parse
followed verbatim by the tokens after the marker (never interpreted as
options).  The marker itself, however, is not left as-is: its slot is
nulled, so compaction removes it. -/
theorem C1_end_of_options (ctxt : dooshki_args) (argv0 : List (Option Token))
    (store0 : List OptVal) (found0 : List Bool) (p : Nat)
    (hp1 : 1 ≤ p) (hplen : p < argv0.length)
    (hdd : argv0.getD p none = some dashDash)
    (hfirst : ∀ q, q < p → 1 ≤ q → argv0.getD q none ≠ some dashDash)
    (htail : ∀ k, k < argv0.length → p < k → argv0.getD k none ≠ none) :
    ((dooshki_args_parse ctxt argv0 store0 found0).store
        = (dooshki_args_parse ctxt (argv0.take (p + 1)) store0 found0).store
      ∧ (dooshki_args_parse ctxt argv0 store0 found0).found
        = (dooshki_args_parse ctxt (argv0.take (p + 1)) store0 found0).found
      ∧ (dooshki_args_parse ctxt argv0 store0 found0).show_help
        = (dooshki_args_parse ctxt (argv0.take (p + 1)) store0 found0).show_help
      ∧ (dooshki_args_parse ctxt argv0 store0 found0).show_version
        = (dooshki_args_parse ctxt (argv0.take (p + 1)) store0 found0).show_version
      ∧ (dooshki_args_parse ctxt argv0 store0 found0).errors_found
        = (dooshki_args_parse ctxt (argv0.take (p + 1)) store0 found0).errors_found
      ∧ (dooshki_args_parse ctxt argv0 store0 found0).err_log
        = (dooshki_args_parse ctxt (argv0.take (p + 1)) store0 found0).err_log
      ∧ (dooshki_args_parse ctxt argv0 store0 found0).ret
        = (dooshki_args_parse ctxt (argv0.take (p + 1)) store0 found0).ret)
    ∧ final_args (dooshki_args_parse ctxt argv0 store0 found0)
        = final_args (dooshki_args_parse ctxt (argv0.take (p + 1)) store0 found0)
          ++ argv0.drop (p + 1)
    ∧ (scan_state ctxt argv0 store0 found0).argv.getD p none = none := by
  obtain ⟨hC, hH⟩ := parse_scan_take_commute argv0.length (p + 1) p ctxt.opt_desc
    (p - 1) 1
    { argv := argv0, store := store0, found := found0, show_help := false,
      show_version := false, errors_found := false, err_log := [] }
    (argv0.length - 1) p (by omega) hdd (by omega) (by omega) hplen (by omega)
    (le_refl 1)
  have hH' : ∀ k, p < k → (scan_state ctxt argv0 store0 found0).argv.getD k none
      = argv0.getD k none := hH
  have hlen' : (argv0.take (p + 1)).length = p + 1 := by
    rw [List.length_take]; omega
  have hB : scan_state ctxt (argv0.take (p + 1)) store0 found0
      = { scan_state ctxt argv0 store0 found0 with
          argv := (scan_state ctxt argv0 store0 found0).argv.take (p + 1) } := by
    show parse_scan (argv0.take (p + 1)).length ctxt.opt_desc
        ((argv0.take (p + 1)).length - 1) 1
        { argv := argv0.take (p + 1), store := store0, found := found0,
          show_help := false, show_version := false, errors_found := false,
          err_log := [] }
      = _
    rw [hlen']
    exact hC
  have hFlen : (scan_state ctxt argv0 store0 found0).argv.length = argv0.length :=
    (parse_scan_argv_evolve argv0.length ctxt.opt_desc (argv0.length - 1) 1
      { argv := argv0, store := store0, found := found0, show_help := false,
        show_version := false, errors_found := false, err_log := [] } (le_refl 1)).1
  have hFne : (scan_state ctxt argv0 store0 found0).argv ≠ [] := by
    intro h
    rw [h] at hFlen
    simp only [List.length_nil] at hFlen
    omega
  obtain ⟨hA2, hA1, hA3⟩ := deflate_args_list_spec
    (scan_state ctxt argv0 store0 found0).argv hFne
  have hBargv : (scan_state ctxt (argv0.take (p + 1)) store0 found0).argv
      = (scan_state ctxt argv0 store0 found0).argv.take (p + 1) := by
    rw [hB]
  have hBlen : (scan_state ctxt (argv0.take (p + 1)) store0 found0).argv.length
      = p + 1 := by
    rw [hBargv, List.length_take, hFlen]
    omega
  have hBne : (scan_state ctxt (argv0.take (p + 1)) store0 found0).argv ≠ [] := by
    intro h
    rw [h] at hBlen
    simp at hBlen
  obtain ⟨hB2, hB1, hB3⟩ := deflate_args_list_spec
    (scan_state ctxt (argv0.take (p + 1)) store0 found0).argv hBne
  have hdropeq : (scan_state ctxt argv0 store0 found0).argv.drop (p + 1)
      = argv0.drop (p + 1) := by
    apply List.ext_getElem?
    intro k
    rw [List.getElem?_drop, List.getElem?_drop]
    by_cases hm : p + 1 + k < argv0.length
    · have hl : p + 1 + k < (scan_state ctxt argv0 store0 found0).argv.length := by
        rw [hFlen]; exact hm
      rw [List.getElem?_eq_getElem hl, List.getElem?_eq_getElem hm]
      have hgd := hH' (p + 1 + k) (by omega)
      rw [getD_get _ _ hl, getD_get _ _ hm] at hgd
      rw [hgd]
    · rw [List.getElem?_eq_none (by rw [hFlen]; omega), List.getElem?_eq_none (by omega)]
  have htail' : ∀ x ∈ argv0.drop (p + 1), x ≠ none := by
    intro x hx
    rw [List.mem_iff_getElem] at hx
    obtain ⟨j, hj, hjx⟩ := hx
    have hjlen : p + 1 + j < argv0.length := by
      rw [List.length_drop] at hj
      omega
    have hval : argv0.getD (p + 1 + j) none = x := by
      rw [getD_get _ _ hjlen, ← hjx]
      exact (List.getElem_drop _).symm
    intro hxn
    exact htail (p + 1 + j) hjlen (by omega) (by rw [hval, hxn])
  have hsplit : (scan_state ctxt argv0 store0 found0).argv.drop 1
      = ((scan_state ctxt argv0 store0 found0).argv.take (p + 1)).drop 1
        ++ argv0.drop (p + 1) := by
    conv_lhs =>
      rw [← List.take_append_drop (p + 1) (scan_state ctxt argv0 store0 found0).argv]
    rw [List.drop_append_of_le_length (by rw [List.length_take, hFlen]; omega), hdropeq]
  refine ⟨⟨?_, ?_, ?_, ?_, ?_, ?_, ?_⟩, ?_, ?_⟩
  · show (scan_state ctxt argv0 store0 found0).store
      = (scan_state ctxt (argv0.take (p + 1)) store0 found0).store
    rw [hB]
  · show (scan_state ctxt argv0 store0 found0).found
      = (scan_state ctxt (argv0.take (p + 1)) store0 found0).found
    rw [hB]
  · show (scan_state ctxt argv0 store0 found0).show_help
      = (scan_state ctxt (argv0.take (p + 1)) store0 found0).show_help
    rw [hB]
  · show (scan_state ctxt argv0 store0 found0).show_version
      = (scan_state ctxt (argv0.take (p + 1)) store0 found0).show_version
    rw [hB]
  · show (scan_state ctxt argv0 store0 found0).errors_found
      = (scan_state ctxt (argv0.take (p + 1)) store0 found0).errors_found
    rw [hB]
  · show (scan_state ctxt argv0 store0 found0).err_log
      = (scan_state ctxt (argv0.take (p + 1)) store0 found0).err_log
    rw [hB]
  · show (if (scan_state ctxt argv0 store0 found0).show_help
          then dooshki_args_ret.HELP_SHOWN
        else if (scan_state ctxt argv0 store0 found0).show_version
          then dooshki_args_ret.VER_SHOWN
        else if (scan_state ctxt argv0 store0 found0).errors_found
          then dooshki_args_ret.PARSE_ERROR
        else dooshki_args_ret.PARSE_OK)
      = (if (scan_state ctxt (argv0.take (p + 1)) store0 found0).show_help
          then dooshki_args_ret.HELP_SHOWN
        else if (scan_state ctxt (argv0.take (p + 1)) store0 found0).show_version
          then dooshki_args_ret.VER_SHOWN
        else if (scan_state ctxt (argv0.take (p + 1)) store0 found0).errors_found
          then dooshki_args_ret.PARSE_ERROR
        else dooshki_args_ret.PARSE_OK)
    rw [hB]
  · show (deflate_args_list (scan_state ctxt argv0 store0 found0).argv).1.take
        (deflate_args_list (scan_state ctxt argv0 store0 found0).argv).2
      = (deflate_args_list
            (scan_state ctxt (argv0.take (p + 1)) store0 found0).argv).1.take
          (deflate_args_list
            (scan_state ctxt (argv0.take (p + 1)) store0 found0).argv).2
        ++ argv0.drop (p + 1)
    rw [hA1, hB1, hsplit, List.filterMap_append, List.map_append,
      filterMap_id_map_some _ htail', hBargv]
    have h11 : min 1 (p + 1) = 1 := by omega
    rw [List.take_take, h11, List.append_assoc]
  · exact parse_scan_marker_nulled argv0.length p ctxt.opt_desc (p - 1) 1
      { argv := argv0, store := store0, found := found0, show_help := false,
        show_version := false, errors_found := false, err_log := [] }
      (argv0.length - 1) (by omega) hdd (fun q h1 h2 => hfirst q h2 h1)
      (by omega) hplen (le_refl 1)

/-- Witness for `C1_end_of_options`: the command line `prog -- -a`
(marker at slot 1) — the tail token `-a` is appended verbatim to the
compacted result of the truncated parse, and the marker's slot is nulled. -/
theorem C1_end_of_options_witness :
    ([some progTok, some dashDash, some ['-', 'a']] :
        List (Option Token)).getD 1 none = some dashDash
  ∧ final_args (dooshki_args_parse emptyCtxt
        [some progTok, some dashDash, some ['-', 'a']] [] [])
      = final_args (dooshki_args_parse emptyCtxt
          (([some progTok, some dashDash, some ['-', 'a']] :
            List (Option Token)).take 2) [] [])
        ++ ([some progTok, some dashDash, some ['-', 'a']] :
            List (Option Token)).drop 2
  ∧ (scan_state emptyCtxt
        [some progTok, some dashDash, some ['-', 'a']] [] []).argv.getD 1 none
      = none :=
  ⟨by decide,
   (C1_end_of_options emptyCtxt [some progTok, some dashDash, some ['-', 'a']]
      [] [] 1 (by decide) (by decide) (by decide) (by decide) (by decide)).2.1,
   (C1_end_of_options emptyCtxt [some progTok, some dashDash, some ['-', 'a']]
      [] [] 1 (by decide) (by decide) (by decide) (by decide) (by decide)).2.2⟩

/-- Witness for `C6_cluster_equals_split`: `-fd a b` versus `-f a -d b`
for two string-valued options with found-flags. -/
theorem C6_cluster_equals_split_witness :
    ('f' : Char) ≠ 'h'
  ∧ ((dooshki_args_parse ⟨[⟨some ['f'], none, OptType.STR, true, noCb⟩,
          ⟨some ['d'], none, OptType.STR, true, noCb⟩]⟩
        [some progTok, some ['-', 'f', 'd'], some ['a'], some ['b']]
        [OptVal.vStr [], OptVal.vStr []] [false, false]).store
      = (dooshki_args_parse ⟨[⟨some ['f'], none, OptType.STR, true, noCb⟩,
          ⟨some ['d'], none, OptType.STR, true, noCb⟩]⟩
        [some progTok, some ['-', 'f'], some ['a'], some ['-', 'd'], some ['b']]
        [OptVal.vStr [], OptVal.vStr []] [false, false]).store
    ∧ (dooshki_args_parse ⟨[⟨some ['f'], none, OptType.STR, true, noCb⟩,
          ⟨some ['d'], none, OptType.STR, true, noCb⟩]⟩
        [some progTok, some ['-', 'f', 'd'], some ['a'], some ['b']]
        [OptVal.vStr [], OptVal.vStr []] [false, false]).found
      = (dooshki_args_parse ⟨[⟨some ['f'], none, OptType.STR, true, noCb⟩,
          ⟨some ['d'], none, OptType.STR, true, noCb⟩]⟩
        [some progTok, some ['-', 'f'], some ['a'], some ['-', 'd'], some ['b']]
        [OptVal.vStr [], OptVal.vStr []] [false, false]).found
    ∧ final_args (dooshki_args_parse ⟨[⟨some ['f'], none, OptType.STR, true, noCb⟩,
          ⟨some ['d'], none, OptType.STR, true, noCb⟩]⟩
        [some progTok, some ['-', 'f', 'd'], some ['a'], some ['b']]
        [OptVal.vStr [], OptVal.vStr []] [false, false])
      = final_args (dooshki_args_parse ⟨[⟨some ['f'], none, OptType.STR, true, noCb⟩,
          ⟨some ['d'], none, OptType.STR, true, noCb⟩]⟩
        [some progTok, some ['-', 'f'], some ['a'], some ['-', 'd'], some ['b']]
        [OptVal.vStr [], OptVal.vStr []] [false, false])
    ∧ (dooshki_args_parse ⟨[⟨some ['f'], none, OptType.STR, true, noCb⟩,
          ⟨some ['d'], none, OptType.STR, true, noCb⟩]⟩
        [some progTok, some ['-', 'f', 'd'], some ['a'], some ['b']]
        [OptVal.vStr [], OptVal.vStr []] [false, false]).errors_found
      = (dooshki_args_parse ⟨[⟨some ['f'], none, OptType.STR, true, noCb⟩,
          ⟨some ['d'], none, OptType.STR, true, noCb⟩]⟩
        [some progTok, some ['-', 'f'], some ['a'], some ['-', 'd'], some ['b']]
        [OptVal.vStr [], OptVal.vStr []] [false, false]).errors_found
    ∧ (dooshki_args_parse ⟨[⟨some ['f'], none, OptType.STR, true, noCb⟩,
          ⟨some ['d'], none, OptType.STR, true, noCb⟩]⟩
        [some progTok, some ['-', 'f', 'd'], some ['a'], some ['b']]
        [OptVal.vStr [], OptVal.vStr []] [false, false]).ret
      = (dooshki_args_parse ⟨[⟨some ['f'], none, OptType.STR, true, noCb⟩,
          ⟨some ['d'], none, OptType.STR, true, noCb⟩]⟩
        [some progTok, some ['-', 'f'], some ['a'], some ['-', 'd'], some ['b']]
        [OptVal.vStr [], OptVal.vStr []] [false, false]).ret) :=
  ⟨by decide,
   C6_cluster_equals_split 'f' 'd' OptType.STR OptType.STR noCb noCb true true
     progTok ['a'] ['b'] (OptVal.vStr []) (OptVal.vStr []) false false
     (by decide) (by decide) (by decide) (by decide) (by decide) (by decide)
     (by decide) (by decide) (by decide) (by decide) (by decide) (by decide)
     (by decide) (by decide) (by decide)⟩

end Dooshki
